import Mathlib

/-!
Verification of the sprout typed HTTP pipeline.

This file is a shallow embedding, in Lean 4, of the parts of the sprout
router that the specification talks about: the union tag codec
(union.go), JSON projection and header/status derivation
(serialization.go), the error classifier and default error handler
(error.go and the wrap/writeTypedErrorResponse error branch), the
scalar field binder (setFieldValue and the wrap binding loop), and the
hierarchical middleware ordering engine (gatherRouteMiddleware,
collectMiddlewareLayers, runChain, matchesPath).

Go strings are modelled as Lean String values; the handful of
strings-package and strconv-package functions the code uses are
re-implemented below over character lists so that every definition in
this file evaluates by kernel reduction.  Go reflection values are
modelled by the GoVal / GoFields inductive family: a struct value is
its list of (field metadata, field value) pairs, and a pointer carries
the zero value of its element type so that reflect.New has something
to allocate.  The external go-playground validator is out of scope of
the code base (the spec treats it as an external collaborator), so a
handler error value carries the validator's verdict as a boolean
field, as it carries the success of json encoding of the response.
-/

/-! ### Go strings and strconv -/

/-- Character-list splitter underlying `strings.Split` for a one-character
separator (the only form the code uses, with separator `,`). -/
def chSplitOnAux (sep : Char) : List Char → List Char → List (List Char)
  | [], acc => [acc.reverse]
  | c :: rest, acc =>
      if c = sep then acc.reverse :: chSplitOnAux sep rest []
      else chSplitOnAux sep rest (c :: acc)

/-- Split a character list at every occurrence of `sep`. -/
def chSplitOn (sep : Char) (l : List Char) : List (List Char) := chSplitOnAux sep l []

/-- ASCII whitespace test used by the model of `strings.TrimSpace`. -/
def goIsSpace (c : Char) : Bool := c = ' ' || c = '\t' || c = '\n' || c = '\r'

/-- Trim whitespace from both ends of a character list. -/
def chTrim (l : List Char) : List Char :=
  ((l.dropWhile goIsSpace).reverse.dropWhile goIsSpace).reverse

/-- Rebuild a String from its character list. -/
def strOfChars (l : List Char) : String := ⟨l⟩

/-- Model of `strings.Split s ","` style splitting (single-character separator). -/
def goSplit (s : String) (sep : Char) : List String :=
  (chSplitOn sep s.toList).map strOfChars

/-- Model of `strings.TrimSpace` (ASCII whitespace; the tags in scope are ASCII). -/
def goTrimSpace (s : String) : String := strOfChars (chTrim s.toList)

/-- Model of `strings.HasPrefix`. -/
def goHasPrefix (s p : String) : Bool := p.toList.isPrefixOf s.toList

/-- Model of `strings.TrimPrefix`. -/
def goTrimPrefix (s p : String) : String :=
  if goHasPrefix s p then strOfChars (s.toList.drop p.toList.length) else s

/-- Model of `strings.Index s ":"`: position of the first colon, if any. -/
def goIndexColon (s : String) : Option Nat := s.toList.findIdx? (fun c => c = ':')

/-- Take the first `n` characters of a string, as a string (`s[:n]`). -/
def goTake (s : String) (n : Nat) : String := strOfChars (s.toList.take n)

/-- Drop the first `n` characters of a string, as a string (`s[n:]`). -/
def goDrop (s : String) (n : Nat) : String := strOfChars (s.toList.drop n)

/-- Decimal digit recogniser for the strconv models. -/
def goDigit (c : Char) : Option Nat :=
  if '0' ≤ c ∧ c ≤ '9' then some (c.toNat - '0'.toNat) else none

/-- Parse a non-empty all-digit character list as a natural number. -/
def goParseDigits : List Char → Option Nat
  | [] => none
  | l => l.foldlM (fun acc c => (goDigit c).map (fun d => acc * 10 + d)) 0

/-- Error text of a failed strconv call, following Go's NumError formatting. -/
def strconvErr (fn s reason : String) : String :=
  "strconv." ++ fn ++ ": parsing \x22" ++ s ++ "\x22: " ++ reason

/-- Model of `strconv.ParseInt(s, 10, 64)`: optional sign, decimal digits,
64-bit signed range check. -/
def goParseInt64 (s : String) : Except String Int :=
  let syntaxErr : Except String Int := .error (strconvErr "ParseInt" s "invalid syntax")
  let body : List Char → Bool → Except String Int := fun digits neg =>
    match goParseDigits digits with
    | none => syntaxErr
    | some n =>
        let v : Int := if neg then -(n : Int) else (n : Int)
        if -(2 ^ 63) ≤ v ∧ v < 2 ^ 63 then .ok v
        else .error (strconvErr "ParseInt" s "value out of range")
  match s.toList with
  | [] => syntaxErr
  | '+' :: rest => body rest false
  | '-' :: rest => body rest true
  | l => body l false

/-- Model of `strconv.ParseUint(s, 10, 64)`: no sign allowed, decimal digits,
64-bit unsigned range check. -/
def goParseUint64 (s : String) : Except String Nat :=
  match goParseDigits s.toList with
  | none => .error (strconvErr "ParseUint" s "invalid syntax")
  | some n =>
      if n < 2 ^ 64 then .ok n
      else .error (strconvErr "ParseUint" s "value out of range")

/-- Model of `strconv.ParseBool`. -/
def goParseBool (s : String) : Except String Bool :=
  if s = "1" ∨ s = "t" ∨ s = "T" ∨ s = "true" ∨ s = "TRUE" ∨ s = "True" then .ok true
  else if s = "0" ∨ s = "f" ∨ s = "F" ∨ s = "false" ∨ s = "FALSE" ∨ s = "False" then .ok false
  else .error (strconvErr "ParseBool" s "invalid syntax")

/-- Model of `strconv.Atoi` restricted to what extractStatusCode needs:
the parsed value when parsing succeeds. -/
def goAtoi (s : String) : Option Int := (goParseInt64 s).toOption

/-! ### Reflection model: struct values and field metadata -/

/-- Metadata of one struct field: its Go name, the raw struct tags the
pipeline reads, and the reflection facts the code branches on
(anonymous embedding, exportedness). -/
structure FieldMeta where
  name : String
  jsonTag : String := ""
  sproutTag : String := ""
  pathTag : String := ""
  queryTag : String := ""
  headerTag : String := ""
  httpTag : String := ""
  anonymous : Bool := false
  exported : Bool := true
  deriving Repr, DecidableEq

mutual
/-- A Go value as the pipeline's reflection code sees it.  A pointer value
carries the zero value of its element type (`vptrNil zero` is a nil
pointer of a known element type; `vptrSome x` points at `x`), which is
what `reflect.New` on the element type produces.  Struct values carry
their fields.  Multi-level pointers, slices and maps do not occur in the
structures the verified claims are about and are not modelled. -/
inductive GoVal where
  | vstr (s : String)
  | vint (n : Int)
  | vuint (n : Nat)
  | vbool (b : Bool)
  | vptrNil (zero : GoVal)
  | vptrSome (x : GoVal)
  | vstruct (fields : GoFields)
  deriving Repr, DecidableEq
/-- The field list of a struct value, kept as a dedicated inductive so that
mutual structural recursion over values and fields is available. -/
inductive GoFields where
  | fnil
  | fcons (meta : FieldMeta) (v : GoVal) (rest : GoFields)
  deriving Repr, DecidableEq
end

/-- Convert a field list to an ordinary Lean list. -/
def GoFields.toList : GoFields → List (FieldMeta × GoVal)
  | .fnil => []
  | .fcons m v rest => (m, v) :: rest.toList

/-- Build a field list from an ordinary Lean list. -/
def GoFields.ofList : List (FieldMeta × GoVal) → GoFields
  | [] => .fnil
  | (m, v) :: rest => .fcons m v (GoFields.ofList rest)

mutual
/-- Model of `reflect.Value.IsZero` on the modelled value family. -/
def GoVal.isZero : GoVal → Bool
  | .vstr s => s = ""
  | .vint n => n = 0
  | .vuint n => n = 0
  | .vbool b => b = false
  | .vptrNil _ => true
  | .vptrSome _ => false
  | .vstruct fields => fields.allZero
/-- All fields of a struct value are zero. -/
def GoFields.allZero : GoFields → Bool
  | .fnil => true
  | .fcons _ v rest => v.isZero && rest.allZero
end

mutual
/-- The zero value of the type of a given value. -/
def GoVal.zeroOf : GoVal → GoVal
  | .vstr _ => .vstr ""
  | .vint _ => .vint 0
  | .vuint _ => .vuint 0
  | .vbool _ => .vbool false
  | .vptrNil z => .vptrNil z
  | .vptrSome x => .vptrNil x.zeroOf
  | .vstruct fields => .vstruct fields.zeroOf
/-- Zero values of every field of a struct. -/
def GoFields.zeroOf : GoFields → GoFields
  | .fnil => .fnil
  | .fcons m v rest => .fcons m v.zeroOf rest.zeroOf
end

/-- Model of `reflect.Value.String`: the string itself for string kinds,
and the `<kind Value>` placeholder Go produces on every other kind. -/
def GoVal.reflectString : GoVal → String
  | .vstr s => s
  | .vint _ => "<int64 Value>"
  | .vuint _ => "<uint64 Value>"
  | .vbool _ => "<bool Value>"
  | .vptrNil _ => "<ptr Value>"
  | .vptrSome _ => "<ptr Value>"
  | .vstruct _ => "<struct Value>"

/-- Kind name used by setFieldValue's unsupported-type error. -/
def GoVal.kindName : GoVal → String
  | .vstr _ => "string"
  | .vint _ => "int64"
  | .vuint _ => "uint64"
  | .vbool _ => "bool"
  | .vptrNil _ => "ptr"
  | .vptrSome _ => "ptr"
  | .vstruct _ => "struct"

/-- Assoc-list lookup modelling a Go map read. -/
def mapLookup (m : List (String × α)) (k : String) : Option α :=
  (m.find? (fun e => e.1 = k)).map (fun e => e.2)

/-- Assoc-list insertion modelling a Go map write: replace the existing
binding for the key, if any, else append. -/
def mapInsert (m : List (String × α)) (k : String) (v : α) : List (String × α) :=
  match m with
  | [] => [(k, v)]
  | (k', v') :: rest => if k' = k then (k, v) :: rest else (k', v') :: mapInsert rest k v

/-! ### Declarative tag parsing (serialization.go) -/

/-- Parsed form of a `json:"..."` struct tag. -/
structure jsonTagInfo where
  Name : String
  OmitEmpty : Bool
  deriving Repr, DecidableEq

/-- Model of parseJSONTag: the serialized name defaults to the field name,
`-` suppresses the field, and a trailing `omitempty` option is recognised. -/
def parseJSONTag (field : FieldMeta) : jsonTagInfo :=
  let tag := field.jsonTag
  if tag = "" then ⟨field.name, false⟩
  else if tag = "-" then ⟨"", false⟩
  else
    match goSplit tag ',' with
    | [] => ⟨field.name, false⟩
    | p0 :: opts =>
        ⟨if p0 ≠ "" then p0 else field.name,
         opts.any (fun o => goTrimSpace o = "omitempty")⟩

/-- Model of hasSproutOption: membership of `option` in the comma-separated
`sprout:"..."` tag. -/
def hasSproutOption (field : FieldMeta) (option : String) : Bool :=
  if field.sproutTag = "" then false
  else (goSplit field.sproutTag ',').any (fun part => goTrimSpace part = option)

/-- Model of isUnwrapField. -/
def isUnwrapField (field : FieldMeta) : Bool := hasSproutOption field "unwrap"

/-- Model of shouldExcludeFromJSON: explicit `json:"-"` or any
routing/metadata tag keeps a field out of the JSON projection. -/
def shouldExcludeFromJSON (field : FieldMeta) : Bool :=
  if field.jsonTag = "-" then true
  else if field.pathTag ≠ "" then true
  else if field.queryTag ≠ "" then true
  else if field.headerTag ≠ "" then true
  else if field.httpTag ≠ "" then true
  else false

/-- Dereference one pointer level of a type, standing for `t.Elem()`; for a
nil pointer the carried zero value plays the role of the element type. -/
def derefType : GoVal → GoVal
  | .vptrNil z => z
  | .vptrSome x => x
  | v => v

/-- Extract a `status=NNN` part from an `http:"..."` tag, if present and
parseable, as extractStatusCode's inner loop does. -/
def statusFromHTTPTag (tag : String) : Option Int :=
  (goSplit tag ',').findSome? (fun part =>
    let p := goTrimSpace part
    if goHasPrefix p "status=" then goAtoi (goTrimPrefix p "status=") else none)

/-- Model of extractStatusCode: the first field whose http tag yields a
parseable status wins; otherwise the default code is returned. -/
def extractStatusCode (t : GoVal) (defaultCode : Int) : Int :=
  match derefType t with
  | .vstruct fields =>
      match fields.toList.findSome? (fun fv =>
        if fv.1.httpTag ≠ "" then statusFromHTTPTag fv.1.httpTag else none) with
      | some code => code
      | none => defaultCode
  | _ => defaultCode

/-- Field loop of extractHeaders: a header entry per header-tagged field of
string kind holding a non-empty value.  The loop does not consult the
field's exportedness. -/
def extractHeadersLoop : List (FieldMeta × GoVal) → List (String × String) → List (String × String)
  | [], headers => headers
  | (m, val) :: rest, headers =>
      let headers :=
        if m.headerTag ≠ "" then
          match val with
          | .vstr s => if s ≠ "" then mapInsert headers m.headerTag s else headers
          | _ => headers
        else headers
      extractHeadersLoop rest headers

/-- Model of extractHeaders: dereference a pointer (nil gives no headers),
require a struct, then run the field loop. -/
def extractHeaders (v : GoVal) : List (String × String) :=
  match v with
  | .vptrNil _ => []
  | .vptrSome (.vstruct fields) => extractHeadersLoop fields.toList []
  | .vstruct fields => extractHeadersLoop fields.toList []
  | _ => []

/-- Field scan of isStructLike: a struct with no fields qualifies, else some
field must be exported or carry an http/json tag. -/
def structLikeCheck (fs : List (FieldMeta × GoVal)) : Bool :=
  match fs with
  | [] => true
  | _ => fs.any (fun fv => fv.1.exported || fv.1.httpTag ≠ "" || fv.1.jsonTag ≠ "")

/-- Model of isStructLike: nil pointers and non-struct values are not
struct-like; otherwise the field scan decides. -/
def isStructLike (v : GoVal) : Bool :=
  match v with
  | .vptrNil _ => false
  | .vptrSome (.vstruct fields) => structLikeCheck fields.toList
  | .vptrSome _ => false
  | .vstruct fields => structLikeCheck fields.toList
  | _ => false

/-- Model of shouldWriteBody: HEAD requests, 1xx statuses and 204/205/304
suppress the body. -/
def shouldWriteBody (method : String) (status : Int) : Bool :=
  if method = "HEAD" then false
  else if 100 ≤ status ∧ status < 200 then false
  else if status = 204 ∨ status = 205 ∨ status = 304 then false
  else true

/-! ### Union tag codec (union.go) -/

/-- Parsed information about a union-tagged field. -/
structure unionFieldInfo where
  fieldIndex : Nat := 0
  jsonFieldName : String
  discriminatorField : String
  discriminatorValue : String
  deriving Repr, DecidableEq

/-- Model of parseUnionTag: scan the comma-separated parts for `union=` and
`when=Field:value` clauses; when any of the three components is missing
the tag is not a union tag and the result is none. -/
def parseUnionTag (tag : String) : Option unionFieldInfo :=
  if tag = "" then none
  else
    let info := (goSplit tag ',').foldl (fun (info : unionFieldInfo) rawPart =>
      let part := goTrimSpace rawPart
      if goHasPrefix part "union=" then { info with jsonFieldName := goTrimPrefix part "union=" }
      else if goHasPrefix part "when=" then
        let w := goTrimPrefix part "when="
        match goIndexColon w with
        | some colonIdx =>
            if 0 < colonIdx then
              { info with discriminatorField := goTake w colonIdx,
                          discriminatorValue := goDrop w (colonIdx + 1) }
            else info
        | none => info
      else info) ⟨0, "", "", ""⟩
    if info.jsonFieldName = "" ∨ info.discriminatorField = "" ∨ info.discriminatorValue = "" then
      none
    else some info

/-- Index-carrying scan underlying collectUnionFields. -/
def collectUnionFieldsLoop : Nat → List FieldMeta → List unionFieldInfo
  | _, [] => []
  | i, m :: rest =>
      match parseUnionTag m.sproutTag with
      | some info => { info with fieldIndex := i } :: collectUnionFieldsLoop (i + 1) rest
      | none => collectUnionFieldsLoop (i + 1) rest

/-- Model of collectUnionFields: union descriptors of every field whose
sprout tag parses as a union tag, with their field indices. -/
def collectUnionFields (t : GoVal) : List unionFieldInfo :=
  match derefType t with
  | .vstruct fields => collectUnionFieldsLoop 0 (fields.toList.map (fun fv => fv.1))
  | _ => []

/-- Model of `reflect.Value.FieldByName` on the modelled flat structs. -/
def fieldByName (fs : List (FieldMeta × GoVal)) (n : String) : Option (FieldMeta × GoVal) :=
  fs.find? (fun fv => fv.1.name = n)

/-- One field's pass of serializeUnionFields: a cleanly parsed union tag
whose discriminator (looked up by name over the whole struct) matches
adds the non-nil, interface-accessible variant value under its declared
JSON key. -/
def serializeUnionStep (all : List (FieldMeta × GoVal)) (m : FieldMeta) (val : GoVal)
    (result : List (String × GoVal)) : List (String × GoVal) :=
  match parseUnionTag m.sproutTag with
  | none => result
  | some info =>
      match fieldByName all info.discriminatorField with
      | none => result
      | some (_, dval) =>
          if dval.reflectString ≠ info.discriminatorValue then result
          else
            match val with
            | .vptrNil _ => result
            | v => if m.exported then mapInsert result info.jsonFieldName v else result

/-- Field loop of serializeUnionFields over the struct's fields, with the
whole field list available for discriminator lookups. -/
def serializeUnionFieldsLoop (all : List (FieldMeta × GoVal)) :
    List (FieldMeta × GoVal) → List (String × GoVal) → List (String × GoVal)
  | [], result => result
  | (m, val) :: rest, result =>
      serializeUnionFieldsLoop all rest (serializeUnionStep all m val result)

/-- Model of serializeUnionFields: add the active, populated union variant
to the projection under its declared JSON key. -/
def serializeUnionFields (fields : List (FieldMeta × GoVal)) (result : List (String × GoVal)) :
    List (String × GoVal) :=
  serializeUnionFieldsLoop fields fields result

/-! ### JSON projection (serialization.go, toJSONMap) -/

/-- Inner loop of toJSONMap's anonymous-embedding branch: the embedded
struct's own fields are added under their JSON names after the exclusion
and unwrap checks, without an omit-if-empty check (the source branch has
none) and without descending further. -/
def flattenEmbeddedFields : List (FieldMeta × GoVal) → List (String × GoVal) → List (String × GoVal)
  | [], result => result
  | (m, v) :: rest, result =>
      let result :=
        if shouldExcludeFromJSON m then result
        else
          let tagInfo := parseJSONTag m
          if tagInfo.Name = "" ∨ isUnwrapField m then result
          else if m.exported then mapInsert result tagInfo.Name v else result
      flattenEmbeddedFields rest result

/-- Direct-field step of toJSONMap: exclusion, unwrap and omit-if-empty
checks, then emission under the declared or default key. -/
def directFieldStep (m : FieldMeta) (v : GoVal) (result : List (String × GoVal)) :
    List (String × GoVal) :=
  if shouldExcludeFromJSON m then result
  else
    let tagInfo := parseJSONTag m
    if tagInfo.Name = "" ∨ isUnwrapField m then result
    else if tagInfo.OmitEmpty && v.isZero then result
    else mapInsert result tagInfo.Name v

/-- Field loop of toJSONMap: anonymous struct-kind fields take the
flattening branch, every other field the direct branch. -/
def toJSONMapLoop : List (FieldMeta × GoVal) → List (String × GoVal) → List (String × GoVal)
  | [], result => result
  | (m, v) :: rest, result =>
      let result :=
        if m.anonymous then
          match v with
          | .vstruct efields => flattenEmbeddedFields efields.toList result
          | _ => directFieldStep m v result
        else directFieldStep m v result
      toJSONMapLoop rest result

/-- Projection of a struct's field list: the regular field loop followed by
the union serializer. -/
def toJSONMapCore (fs : List (FieldMeta × GoVal)) : List (String × GoVal) :=
  serializeUnionFields fs (toJSONMapLoop fs [])

/-- Model of toJSONMap: dereference a pointer (nil projects to the empty
map), require a struct, then project the fields. -/
def toJSONMap (v : GoVal) : List (String × GoVal) :=
  match v with
  | .vptrNil _ => []
  | .vptrSome (.vstruct fields) => toJSONMapCore fields.toList
  | .vptrSome _ => []
  | .vstruct fields => toJSONMapCore fields.toList
  | _ => []

/-! ### JSON values, encoding and flat decoding (encoding/json as the
pipeline uses it: flat scalar structs, one pointer level) -/

/-- A JSON value, restricted to the forms the verified claims exercise
(null, strings, integer numbers, booleans, objects). -/
inductive JVal where
  | jnull
  | jstr (s : String)
  | jint (n : Int)
  | jbool (b : Bool)
  | jobj (entries : List (String × JVal))
  deriving Repr

mutual
/-- Model of `json.Marshal` on the modelled value family.  Field emission
follows the json tag (name, `-`, omitempty); anonymous-field promotion is
not modelled because the payload structs in scope declare none. -/
def encodeJSON : GoVal → JVal
  | .vstr s => .jstr s
  | .vint n => .jint n
  | .vuint n => .jint (n : Int)
  | .vbool b => .jbool b
  | .vptrNil _ => .jnull
  | .vptrSome x => encodeJSON x
  | .vstruct fields => .jobj (encodeJSONFields fields)
/-- Struct-field emission of the json encoder. -/
def encodeJSONFields : GoFields → List (String × JVal)
  | .fnil => []
  | .fcons m v rest =>
      let restEnc := encodeJSONFields rest
      if m.exported then
        let tagInfo := parseJSONTag m
        if tagInfo.Name = "" then restEnc
        else if tagInfo.OmitEmpty && v.isZero then restEnc
        else (tagInfo.Name, encodeJSON v) :: restEnc
      else restEnc
end

/-- Re-reading a serialized `map[string]interface` body into
`map[string]json.RawMessage`: every top-level key maps to the raw
encoding of its value. -/
def bodyMapOf (m : List (String × GoVal)) : List (String × JVal) :=
  m.map (fun e => (e.1, encodeJSON e.2))

/-- Model of `json.Unmarshal` into a scalar target: null leaves the target
unchanged, a matching scalar overwrites it, anything else is a type
error. -/
def decodeScalar (cur : GoVal) (j : JVal) : Except String GoVal :=
  match cur, j with
  | c, .jnull => .ok c
  | .vstr _, .jstr s => .ok (.vstr s)
  | .vint _, .jint n => .ok (.vint n)
  | .vuint _, .jint n =>
      if n < 0 then .error "json: cannot unmarshal negative number into unsigned field"
      else .ok (.vuint n.toNat)
  | .vbool _, .jbool b => .ok (.vbool b)
  | _, _ => .error "json: cannot unmarshal value into incompatible field"

/-- Whether a struct field is the decode target for a JSON object key:
exported, json-eligible and carrying that serialized name. -/
def jsonFieldMatches (m : FieldMeta) (key : String) : Bool :=
  m.exported && (parseJSONTag m).Name ≠ "" && (parseJSONTag m).Name = key

/-- Set the first field matching a JSON object key from a JSON value;
unknown keys are ignored, as `json.Unmarshal` ignores them. -/
def setFlatField : List (FieldMeta × GoVal) → String → JVal → Except String (List (FieldMeta × GoVal))
  | [], _, _ => .ok []
  | (m, v) :: rest, key, j =>
      if jsonFieldMatches m key then
        match decodeScalar v j with
        | .error e => .error e
        | .ok v' => .ok ((m, v') :: rest)
      else
        match setFlatField rest key j with
        | .error e => .error e
        | .ok rest' => .ok ((m, v) :: rest')

/-- Decode a JSON object's entries into a flat struct's fields, merging
over the current values as `json.Unmarshal` does. -/
def decodeFlatObj : List (FieldMeta × GoVal) → List (String × JVal) → Except String (List (FieldMeta × GoVal))
  | fs, [] => .ok fs
  | fs, (k, j) :: entries =>
      match setFlatField fs k j with
      | .error e => .error e
      | .ok fs' => decodeFlatObj fs' entries

/-- Model of `json.Unmarshal` into a flat struct or scalar target. -/
def jsonUnmarshalInto (cur : GoVal) (j : JVal) : Except String GoVal :=
  match cur, j with
  | .vstruct fields, .jobj entries =>
      match decodeFlatObj fields.toList entries with
      | .error e => .error e
      | .ok fs' => .ok (.vstruct (GoFields.ofList fs'))
  | .vstruct fields, .jnull => .ok (.vstruct fields)
  | .vstruct _, _ => .error "json: cannot unmarshal value into struct field"
  | c, j => decodeScalar c j

/-! ### Union unmarshalling (union.go, unmarshalUnionFields) -/

/-- Replace the value of the field at a given index. -/
def updateFieldAt : List (FieldMeta × GoVal) → Nat → GoVal → List (FieldMeta × GoVal)
  | [], _, _ => []
  | (m, _) :: rest, 0, v' => (m, v') :: rest
  | (m, v) :: rest, n + 1, v' => (m, v) :: updateFieldAt rest n v'

/-- Decode a union target field from its raw JSON: a pointer target gets a
freshly allocated zero element (the code always re-allocates; a nil
pointer carries its element type's zero by the GoVal convention), a
non-pointer target is decoded in place. -/
def unionDecodeTarget (target : GoVal) (raw : JVal) : Except String GoVal :=
  match target with
  | .vptrNil z =>
      match jsonUnmarshalInto z raw with
      | .error e => .error e
      | .ok v' => .ok (.vptrSome v')
  | .vptrSome x =>
      match jsonUnmarshalInto x.zeroOf raw with
      | .error e => .error e
      | .ok v' => .ok (.vptrSome v')
  | v => jsonUnmarshalInto v raw

/-- One union descriptor's pass of unmarshalUnionFields: read the
discriminator (errors if missing or not a string), skip inactive variants
and absent keys, then decode the raw JSON into the target field. -/
def unmarshalUnionStep (fields : List (FieldMeta × GoVal)) (bodyMap : List (String × JVal))
    (u : unionFieldInfo) : Except String (List (FieldMeta × GoVal)) :=
  match fieldByName fields u.discriminatorField with
  | none =>
      .error ("union discriminator field \x27" ++ u.discriminatorField ++ "\x27 not found")
  | some (_, dval) =>
      match dval with
      | .vstr actualValue =>
          if actualValue ≠ u.discriminatorValue then .ok fields
          else
            match mapLookup bodyMap u.jsonFieldName with
            | none => .ok fields
            | some raw =>
                match fields.get? u.fieldIndex with
                | none => .error ("cannot set union field at index " ++ toString u.fieldIndex)
                | some (m, target) =>
                    if m.exported then
                      match unionDecodeTarget target raw with
                      | .ok v' => .ok (updateFieldAt fields u.fieldIndex v')
                      | .error e =>
                          .error ("failed to unmarshal union field \x27" ++ m.name ++ "\x27: " ++ e)
                    else .error ("cannot set union field at index " ++ toString u.fieldIndex)
      | _ =>
          .error ("union discriminator field \x27" ++ u.discriminatorField ++ "\x27 must be a string")

/-- Model of unmarshalUnionFields: fold the per-descriptor pass over the
collected union descriptors, stopping at the first failure. -/
def unmarshalUnionFields (fields : List (FieldMeta × GoVal)) (bodyMap : List (String × JVal))
    (unions : List unionFieldInfo) : Except String (List (FieldMeta × GoVal)) :=
  match unions with
  | [] => .ok fields
  | u :: rest =>
      match unmarshalUnionStep fields bodyMap u with
      | .error e => .error e
      | .ok fields' => unmarshalUnionFields fields' bodyMap rest

/-! ### Error taxonomy and classifier (error.go, wrap's error branch,
writeTypedErrorResponse) -/

/-- The declared error kinds of the pipeline. -/
inductive ErrorKind where
  | parse
  | validation
  | responseValidation
  | errorValidation
  | undeclaredError
  | notFound
  | methodNotAllowed
  | serialization
  deriving Repr, DecidableEq

/-- The string constant each kind is declared as. -/
def ErrorKind.text : ErrorKind → String
  | .parse => "parse_error"
  | .validation => "validation_error"
  | .responseValidation => "response_validation_error"
  | .errorValidation => "error_validation_error"
  | .undeclaredError => "undeclared_error_type"
  | .notFound => "not_found"
  | .methodNotAllowed => "method_not_allowed"
  | .serialization => "serialization_error"

/-- A handler-defined error value as the classifier observes it: its
dereferenced type name, its reflection value, whether `errors.As`
recognises it as a pipeline Error, the external validator's verdict on
it, whether json encoding of it succeeds, and its Error() text. -/
structure HandlerError where
  typeName : String
  value : GoVal
  isSproutError : Bool := false
  validates : Bool := true
  encodeOk : Bool := true
  errText : String := ""
  deriving Repr, DecidableEq

/-- An error travelling through the pipeline: the nil error, the ErrNext
sentinel, an `errors.New` string error, a classified pipeline Error with
its cause (nilErr when absent), or a handler-defined typed error. -/
inductive GoError where
  | nilErr
  | errNext
  | errorString (msg : String)
  | sproutError (kind : ErrorKind) (msg : String) (cause : GoError)
  | typedError (e : HandlerError)
  deriving Repr, DecidableEq

/-- Model of `errors.Is(err, ErrNext)`: the sentinel itself, or a pipeline
Error whose cause chain reaches it (Error.Unwrap walks the cause); the
other modelled error forms declare no Unwrap. -/
def isErrNext : GoError → Bool
  | .errNext => true
  | .sproutError _ _ c => isErrNext c
  | _ => false

/-- Model of `errors.As(err, **Error)` on the modelled error forms. -/
def asSproutError : GoError → Bool
  | .sproutError _ _ _ => true
  | .typedError e => e.isSproutError
  | _ => false

/-- Reflection value of an `errors.New` error: one unexported, untagged
string field, which isStructLike rejects. -/
def errorStringValue (msg : String) : GoVal :=
  .vstruct (.fcons { name := "s", exported := false } (.vstr msg) .fnil)

/-- Reflection value of a pipeline Error (only reached behind the
errors.As guard, so its exact fields are immaterial). -/
def sproutErrorValue (kind : ErrorKind) (msg : String) : GoVal :=
  .vstruct (.fcons { name := "Kind" } (.vstr kind.text)
           (.fcons { name := "Message" } (.vstr msg) .fnil))

/-- The error's dereferenced dynamic type name, as WithErrors stores
declared types (pointer types are dereferenced on both sides). -/
def GoError.typeName : GoError → String
  | .nilErr => ""
  | .errNext => "errors.errorString"
  | .errorString _ => "errors.errorString"
  | .sproutError _ _ _ => "sprout.Error"
  | .typedError e => e.typeName

/-- View any pipeline error through the classifier's HandlerError lens. -/
def GoError.asHandlerError : GoError → HandlerError
  | .nilErr => ⟨"", .vstr "", false, true, true, ""⟩
  | .errNext => ⟨"errors.errorString", errorStringValue "sprout: next", false, true, true, "sprout: next"⟩
  | .errorString msg => ⟨"errors.errorString", errorStringValue msg, false, true, true, msg⟩
  | .sproutError k m _ => ⟨"sprout.Error", sproutErrorValue k m, true, true, true, ""⟩
  | .typedError e => e

/-- The Error() text of a pipeline error (a classified Error prints kind,
message and, when present, its cause). -/
def goErrorText : GoError → String
  | .nilErr => ""
  | .errNext => "sprout: next"
  | .errorString msg => msg
  | .sproutError k m .nilErr => k.text ++ ": " ++ m
  | .sproutError k m c => k.text ++ ": " ++ m ++ ": " ++ goErrorText c
  | .typedError e => e.errText

/-- Outcome of writeTypedErrorResponse: either the error was written as a
typed response with a status (and possibly a suppressed body), or it was
not handled, optionally signalling a fallback classification. -/
inductive TypedWriteResult where
  | notHandled (fallback : Option ErrorKind)
  | handled (status : Int) (bodyWritten : Bool)
  deriving Repr, DecidableEq

/-- Model of writeTypedErrorResponse: pipeline Errors and non-struct-like
values are passed over; under enforced validation a failing error value
falls back to ErrorValidation; otherwise the declared status is
extracted and the body written unless suppressed, with an encoding
failure falling back to Serialization. -/
def writeTypedErrorResponse (enforceValidation : Bool) (method : String) (err : GoError)
    (defaultStatus : Int) : TypedWriteResult :=
  if asSproutError err then .notHandled none
  else
    let e := err.asHandlerError
    if ¬ isStructLike e.value then .notHandled none
    else if enforceValidation && ¬ e.validates then .notHandled (some .errorValidation)
    else
      let status := extractStatusCode e.value defaultStatus
      if ¬ shouldWriteBody method status then .handled status false
      else if e.encodeOk then .handled status true
      else .notHandled (some .serialization)

/-- Outcome of wrap's handler-error branch: the handler delegated via the
sentinel, a typed error response was written, a classified Error was
routed to handleError, or the raw error was passed through (non-strict
undeclared case). -/
inductive WrapErrOutcome where
  | delegated
  | typedResponse (status : Int) (bodyWritten : Bool)
  | classified (kind : ErrorKind)
  | passthrough
  deriving Repr, DecidableEq

/-- Model of wrap's error branch: the sentinel delegates; a declared error
type is attempted as a typed response (validation enforced exactly when
strict mode is on, since the strict flag pointer is always set after
construction); whatever is not handled as declared is classified
UndeclaredError under strict mode and passed through otherwise. -/
def wrapHandleError (expectedErrors : List String) (strict : Bool) (method : String)
    (err : GoError) : WrapErrOutcome :=
  if isErrNext err then .delegated
  else
    let declared := expectedErrors.contains err.typeName
    let strictTail : WrapErrOutcome :=
      if strict then .classified .undeclaredError else .passthrough
    if declared then
      match writeTypedErrorResponse strict method err 500 with
      | .handled st bw => .typedResponse st bw
      | .notHandled (some k) => .classified k
      | .notHandled none => strictTail
    else strictTail

/-- Model of normalizeError: a recognised pipeline Error passes through; a
struct-like foreign error is validated under strict mode and on failure
replaced by an ErrorValidation Error (the wrapped validator error value
is abstracted away); everything else passes through. -/
def normalizeError (strict : Bool) (err : GoError) : GoError :=
  if asSproutError err then err
  else if isStructLike err.asHandlerError.value then
    if ¬ strict then err
    else if ¬ err.asHandlerError.validates then
      .sproutError .errorValidation "error response validation failed" .nilErr
    else err
  else err

/-- Result of handleError: a configured handler took over, a typed error
response was written, or the default plain-text response was written. -/
inductive HandleResult where
  | custom (err : GoError)
  | typedResponse (status : Int) (bodyWritten : Bool)
  | plainText (status : Int) (body : String)
  deriving Repr, DecidableEq

/-- The default status switch of handleError over the classified kind. -/
def defaultStatusFor (kind : ErrorKind) : Int :=
  match kind with
  | .parse => 400
  | .validation => 400
  | .notFound => 404
  | .methodNotAllowed => 405
  | .responseValidation => 500
  | .errorValidation => 500
  | .undeclaredError => 500
  | .serialization => 500

/-- The plain-text tail of handleError: a recognised pipeline Error maps
through the kind switch, anything else gets a 500. -/
def handleErrorSwitch (err : GoError) : HandleResult :=
  match err with
  | .sproutError k m c => .plainText (defaultStatusFor k) (goErrorText (.sproutError k m c))
  | e => .plainText 500 (goErrorText e)

/-- Message of the fallback Error writeTypedErrorResponse can produce. -/
def typedFallbackMessage (k : ErrorKind) : String :=
  match k with
  | .errorValidation => "error response validation failed"
  | .serialization => "failed to encode error response"
  | _ => ""

/-- Model of handleError: normalize, give a configured handler full
control, otherwise attempt a typed error response and fall back to the
plain-text status switch.  A fallback Error coming out of the typed
attempt re-enters handleError; that recursive call always reaches the
plain-text switch (the fallback is a pipeline Error), which is modelled
by taking the switch directly. -/
def handleError (hasCustomHandler : Bool) (strict : Bool) (method : String) (err : GoError) :
    HandleResult :=
  let n := normalizeError strict err
  if hasCustomHandler then .custom n
  else
    match writeTypedErrorResponse true method n 500 with
    | .handled st bw => .typedResponse st bw
    | .notHandled (some k) => handleErrorSwitch (.sproutError k (typedFallbackMessage k) .nilErr)
    | .notHandled none => handleErrorSwitch n

/-! ### Scalar field binder (setFieldValue and wrap's binding loop) -/

/-- Model of setFieldValue: an empty source string leaves the field
untouched; otherwise the string is converted to the field's kind, with
conversion failures wrapped in a kind-specific message.  The float kinds
follow the same pattern through strconv.ParseFloat and are not
separately modelled. -/
def setFieldValue (fieldValue : GoVal) (value : String) : Except String GoVal :=
  if value = "" then .ok fieldValue
  else
    match fieldValue with
    | .vstr _ => .ok (.vstr value)
    | .vint _ =>
        match goParseInt64 value with
        | .ok n => .ok (.vint n)
        | .error e => .error ("failed to parse int: " ++ e)
    | .vuint _ =>
        match goParseUint64 value with
        | .ok n => .ok (.vuint n)
        | .error e => .error ("failed to parse uint: " ++ e)
    | .vbool _ =>
        match goParseBool value with
        | .ok b => .ok (.vbool b)
        | .error e => .error ("failed to parse bool: " ++ e)
    | v => .error ("unsupported field type: " ++ v.kindName)

/-- Read a named value from a request source; every source the binder uses
(path params, query, headers) returns the empty string when the name is
absent. -/
def sourceGet (src : List (String × String)) (k : String) : String :=
  match mapLookup src k with
  | some v => v
  | none => ""

/-- One field's pass of wrap's binding loop: unexported fields are
skipped, then the path, query and header tags are applied in that order,
each conversion failure producing a classified Parse error that carries
the declared source name and the conversion cause, and ending the pass. -/
def bindOneField (params query headers : List (String × String)) (m : FieldMeta) (v : GoVal) :
    Except GoError GoVal :=
  if ¬ m.exported then .ok v
  else
    let afterPath : Except GoError GoVal :=
      if m.pathTag ≠ "" then
        match setFieldValue v (sourceGet params m.pathTag) with
        | .ok v' => .ok v'
        | .error e => .error (.sproutError .parse
            ("invalid path parameter \x27" ++ m.pathTag ++ "\x27") (.errorString e))
      else .ok v
    match afterPath with
    | .error e => .error e
    | .ok v1 =>
        let afterQuery : Except GoError GoVal :=
          if m.queryTag ≠ "" then
            match setFieldValue v1 (sourceGet query m.queryTag) with
            | .ok v' => .ok v'
            | .error e => .error (.sproutError .parse
                ("invalid query parameter \x27" ++ m.queryTag ++ "\x27") (.errorString e))
          else .ok v1
        match afterQuery with
        | .error e => .error e
        | .ok v2 =>
            if m.headerTag ≠ "" then
              match setFieldValue v2 (sourceGet headers m.headerTag) with
              | .ok v' => .ok v'
              | .error e => .error (.sproutError .parse
                  ("invalid header \x27" ++ m.headerTag ++ "\x27") (.errorString e))
            else .ok v2

/-- Model of wrap's scalar binding loop over the request struct's fields:
fields are bound in declaration order and the loop returns at the first
conversion failure, leaving no later field bound. -/
def bindRequest (params query headers : List (String × String)) :
    List (FieldMeta × GoVal) → Except GoError (List (FieldMeta × GoVal))
  | [] => .ok []
  | (m, v) :: rest =>
      match bindOneField params query headers m v with
      | .error e => .error e
      | .ok v' =>
          match bindRequest params query headers rest with
          | .error e => .error e
          | .ok rest' => .ok ((m, v') :: rest')

/-! ### Middleware ordering engine (gatherRouteMiddleware, runChain) -/

/-- A middleware as the chain executor observes it: an identifier for the
execution trace and what the middleware does with its next() callback:
`none` never advances, `some none` advances with a nil error, and
`some (some e)` advances carrying the error `e`. -/
structure MWProg where
  id : String
  advance : Option (Option GoError)
  deriving Repr

/-- Model of middlewareLayer: a middleware with its registration order. -/
structure middlewareLayer where
  order : Int
  fn : MWProg
  deriving Repr

/-- A router node: the root or a mount, each with its own middleware list;
parent back-references become the mount's parent argument. -/
inductive Sprout where
  | root (middlewares : List middlewareLayer)
  | mount (parent : Sprout) (middlewares : List middlewareLayer)

/-- The node's own middleware list. -/
def Sprout.middlewares : Sprout → List middlewareLayer
  | .root m => m
  | .mount _ m => m

/-- Model of ancestorChain: the routers from the root down to the node,
inclusive. -/
def ancestorChain : Sprout → List Sprout
  | .root m => [.root m]
  | .mount p m => ancestorChain p ++ [.mount p m]

/-- Model of collectMiddlewareLayers: aggregate every router's layers and
sort them by registration order (Go uses an unstable sort with a strict
comparator; order numbers are distinct in practice, so ties carry no
meaning and a stable merge sort models the same sequence). -/
def collectMiddlewareLayers (routers : List Sprout) : List middlewareLayer :=
  (routers.map Sprout.middlewares).flatten.mergeSort (fun a b => a.order ≤ b.order)

/-- Model of routeEntry: the owning node, the registration order number,
the wrapped typed handler and the route-scoped middleware. -/
structure routeEntry where
  owner : Sprout
  order : Int
  fn : MWProg
  routeMiddleware : List MWProg

/-- Model of gatherRouteMiddleware: partition the sorted ancestor-chain
layers around the route's registration order. -/
def gatherRouteMiddleware (entry : routeEntry) : List MWProg × List MWProg :=
  let layers := collectMiddlewareLayers (ancestorChain entry.owner)
  layers.foldl (fun acc layer =>
    if layer.order < entry.order then (acc.1 ++ [layer.fn], acc.2)
    else (acc.1, acc.2 ++ [layer.fn])) ([], [])

/-- The execution chain dispatchRoute builds: before-layers, route-scoped
middleware, the typed handler, after-layers. -/
def dispatchChain (entry : routeEntry) : List MWProg :=
  let ba := gatherRouteMiddleware entry
  ba.1 ++ entry.routeMiddleware ++ [entry.fn] ++ ba.2

/-- Model of runChain: execute the chain in order, returning the trace of
executed middleware ids and the error handed to handleChainError, if
any.  The exec closure's error-normalisation step is inlined: an
advance carrying the ErrNext sentinel proceeds like a nil advance, any
other error stops the chain and is routed to handleChainError. -/
def runChain : List MWProg → List String × Option GoError
  | [] => ([], none)
  | m :: rest =>
      match m.advance with
      | none => ([m.id], none)
      | some none => let r := runChain rest; (m.id :: r.1, r.2)
      | some (some e) =>
          if isErrNext e then let r := runChain rest; (m.id :: r.1, r.2)
          else ([m.id], some e)

/-! ### Path matching (matchesPath) -/

/-- Model of matchesPath over the path's bytes: an empty or root base path
matches everything; otherwise the base must be a proper segment-boundary
prefix of the request path. -/
def matchesPath (base path : List Char) : Bool :=
  if base = [] ∨ base = ['/'] then true
  else if ¬ base.isPrefixOf path then false
  else if path.length = base.length then true
  else path.get? base.length == some '/'

/-! ### A concrete union-carrying request (the UserActionRequest shape of the
examples): a string discriminator and two pointer variants sharing the
`props` key. -/

/-- The active variant's payload: one exported flat string field. -/
def uaPayload : List (FieldMeta × GoVal) :=
  [({ name := "Name", jsonTag := "name" }, .vstr "bob")]

/-- The discriminator field's metadata. -/
def uaActionMeta : FieldMeta := { name := "Action", jsonTag := "action" }

/-- The active variant's metadata. -/
def uaCreateMeta : FieldMeta :=
  { name := "CreateProps", sproutTag := "union=props,when=Action:create" }

/-- The inactive variant: a nil pointer field. -/
def uaDeleteField : FieldMeta × GoVal :=
  ({ name := "DeleteProps", sproutTag := "union=props,when=Action:delete" },
   .vptrNil (.vstr ""))

/-- The union descriptor collected for the active variant. -/
def uaDescriptor : unionFieldInfo :=
  { fieldIndex := 1, jsonFieldName := "props", discriminatorField := "Action",
    discriminatorValue := "create" }

/-! ### Claim theorems -/

/-- C8: matchesPath(path) returns true exactly when the node's base path is
empty or the root path, or when the request path has the base path as a
prefix immediately followed by end-of-string or a slash; in particular
the path /user does not match a node based at /use. -/
theorem c8_matchesPath_segment_boundary :
    (∀ base path : List Char,
      matchesPath base path = true ↔
        (base = [] ∨ base = ['/'] ∨
          (base.isPrefixOf path = true ∧
            (path.length = base.length ∨ path.get? base.length = some '/')))) ∧
    matchesPath "/use".toList "/user".toList = false := by
  refine ⟨fun base path => ?_, by decide⟩
  by_cases h1 : base = [] ∨ base = ['/']
  · simp [matchesPath, h1]
    tauto
  · by_cases h2 : base.isPrefixOf path
    · by_cases h3 : path.length = base.length
      · simp [matchesPath, h1, h2, h3]
      · simp [matchesPath, h1, h2, h3]
        tauto
    · simp [matchesPath, h1, h2]

/-- C6: with no custom error handler configured (and no typed-error
classification applying, which never does for a classified Error), the
default handler maps the classified kind to the HTTP status, Parse and
Validation to 400, NotFound to 404, MethodNotAllowed to 405 and every
other kind to 500, with a plain-text body carrying the kind and the
message. -/
theorem c6_default_status_mapping (strict : Bool) (method : String) (kind : ErrorKind)
    (msg : String) (cause : GoError) :
    handleError false strict method (.sproutError kind msg cause) =
      .plainText
        (match kind with
          | .parse => 400
          | .validation => 400
          | .notFound => 404
          | .methodNotAllowed => 405
          | _ => 500)
        (goErrorText (.sproutError kind msg cause)) := by
  cases kind <;>
    simp [handleError, normalizeError, asSproutError, writeTypedErrorResponse,
      handleErrorSwitch, defaultStatusFor]

/-- A chain prefix whose members all advance cleanly (nil or the sentinel)
contributes its ids to the trace and hands control to the rest. -/
theorem runChain_append_clean (pre rest : List MWProg)
    (h : ∀ m ∈ pre, m.advance = some none ∨ m.advance = some (some .errNext)) :
    runChain (pre ++ rest) = (pre.map MWProg.id ++ (runChain rest).1, (runChain rest).2) := by
  induction pre with
  | nil => simp
  | cons m pre ih =>
      rcases h m (by simp) with hm | hm <;>
        simp [runChain, hm, isErrNext, ih fun m' hm' => h m' (by simp [hm'])]

/-- C3 counterexample: a middleware advancing with the ErrNext sentinel
does not skip the typed handler; the handler still executes and the
chain ends without a failure. -/
theorem c3_counterexample_sentinel_does_not_skip_handler :
    runChain [⟨"mw", some (some .errNext)⟩, ⟨"handler", none⟩, ⟨"after", some none⟩] =
      (["mw", "handler"], none) ∧
    "handler" ∈ (runChain [⟨"mw", some (some .errNext)⟩, ⟨"handler", none⟩,
      ⟨"after", some none⟩]).1 := by
  exact ⟨rfl, by decide⟩

/-- C3 as amended: advancing with the delegate sentinel is equivalent to
advancing with no error, so the chain proceeds normally (the typed
handler, if not yet run, still runs and the sentinel is not a failure);
advancing with any other non-nil error stops every remaining link and
hands exactly that error to the chain error handler. -/
theorem c3_amended_sentinel_and_short_circuit :
    (∀ (i : String) (e : GoError) (rest : List MWProg), isErrNext e = true →
        runChain (⟨i, some (some e)⟩ :: rest) = runChain (⟨i, some none⟩ :: rest)) ∧
    (∀ (pre rest : List MWProg) (x : MWProg) (e : GoError),
        (∀ m ∈ pre, m.advance = some none ∨ m.advance = some (some .errNext)) →
        x.advance = some (some e) → isErrNext e = false →
        runChain (pre ++ x :: rest) = (pre.map MWProg.id ++ [x.id], some e)) := by
  constructor
  · intro i e rest he
    simp [runChain, he]
  · intro pre rest x e hpre hx he
    rw [runChain_append_clean pre (x :: rest) hpre]
    obtain ⟨xid, xadv⟩ := x
    simp only at hx
    subst hx
    simp [runChain, he]

/-- Witness for the amended C3 statement at concrete chains. -/
theorem c3_amended_witness :
    runChain [⟨"m", some (some .errNext)⟩, ⟨"h", none⟩] =
      runChain [⟨"m", some none⟩, ⟨"h", none⟩] ∧
    runChain [⟨"log", some none⟩, ⟨"mw", some (some (.errorString "boom"))⟩, ⟨"h", none⟩] =
      (["log", "mw"], some (.errorString "boom")) :=
  ⟨c3_amended_sentinel_and_short_circuit.1 "m" .errNext [⟨"h", none⟩] (by decide),
   c3_amended_sentinel_and_short_circuit.2 [⟨"log", some none⟩] [⟨"h", none⟩]
     ⟨"mw", some (some (.errorString "boom"))⟩ (.errorString "boom")
     (by intro m hm; rw [List.mem_singleton] at hm; subst hm; left; rfl) rfl (by decide)⟩

/-- C2 counterexample: with strict mode on and an empty allowlist (so no
declared-error allowlist exists for the route), a struct-shaped handler
error is still classified UndeclaredError, contradicting the claimed
four-way conjunction. -/
theorem c2_counterexample_empty_allowlist_still_undeclared :
    wrapHandleError [] true "GET"
        (.typedError ⟨"CustomError",
          .vstruct (.fcons { name := "Msg", jsonTag := "message" } (.vstr "boom") .fnil),
          false, true, true, "boom"⟩) = .classified .undeclaredError ∧
    isStructLike (.vstruct (.fcons { name := "Msg", jsonTag := "message" } (.vstr "boom") .fnil))
      = true := by
  exact ⟨by decide, by decide⟩

/-- C2 as amended: for a handler-defined error, the UndeclaredError
classification is produced exactly when strict mode is active and the
error cannot be written as a declared typed response for a type-level
reason: its type is outside the allowlist (also when the allowlist is
empty), or it is a recognised pipeline Error, or it is not struct-shaped.
In particular, with strict mode on and a non-empty allowlist, a
struct-shaped error whose type is not in the allowlist always yields
UndeclaredError and never its own declared status code. -/
theorem c2_amended_undeclared_iff (expected : List String) (strict : Bool) (method : String)
    (e : HandlerError) :
    wrapHandleError expected strict method (.typedError e) = .classified .undeclaredError ↔
      (strict = true ∧
        (e.typeName ∉ expected ∨ e.isSproutError = true ∨ isStructLike e.value = false)) := by
  have hne : isErrNext (.typedError e) = false := rfl
  by_cases hd : e.typeName ∈ expected <;>
    by_cases hs : strict <;>
      by_cases hsp : e.isSproutError <;>
        by_cases hsl : isStructLike e.value <;>
          by_cases hv : e.validates <;>
            by_cases hw : shouldWriteBody method (extractStatusCode e.value 500) <;>
              by_cases hek : e.encodeOk <;>
                simp [wrapHandleError, writeTypedErrorResponse, hne, GoError.typeName,
                  GoError.asHandlerError, asSproutError, List.elem_iff,
                  hd, hs, hsp, hsl, hv, hw, hek]

/-- Closed form of the collectUnionFields scan: exactly the cleanly parsed
union tags survive, each paired with its field index. -/
theorem collectUnionFieldsLoop_enumFrom (k : Nat) (metas : List FieldMeta) :
    collectUnionFieldsLoop k metas =
      (metas.enumFrom k).filterMap (fun p =>
        (parseUnionTag p.2.sproutTag).map (fun info => { info with fieldIndex := p.1 })) := by
  induction metas generalizing k with
  | nil => rfl
  | cons m rest ih =>
      cases hp : parseUnionTag m.sproutTag <;>
        simp [collectUnionFieldsLoop, List.enumFrom, hp, ih]

/-- C9 counterexample: an ill-formed union tag (here one missing the
when-clause) is not reported as a configuration error: parseUnionTag
returns none, collectUnionFields yields no descriptor for the field,
and union unmarshalling proceeds without any failure. -/
theorem c9_counterexample_illformed_tag_silent :
    parseUnionTag "union=properties" = none ∧
    collectUnionFields (.vstruct (.fcons
      { name := "Bad", jsonTag := "-", sproutTag := "union=properties" }
      (.vptrNil (.vstruct .fnil)) .fnil)) = [] ∧
    unmarshalUnionFields
      [({ name := "Bad", jsonTag := "-", sproutTag := "union=properties" },
        .vptrNil (.vstruct .fnil))] []
      (collectUnionFields (.vstruct (.fcons
        { name := "Bad", jsonTag := "-", sproutTag := "union=properties" }
        (.vptrNil (.vstruct .fnil)) .fnil))) =
      .ok [({ name := "Bad", jsonTag := "-", sproutTag := "union=properties" },
        .vptrNil (.vstruct .fnil))] := by
  exact ⟨by decide, by decide, rfl⟩

/-- C9 as amended: an ambiguous or ill-formed union tag (missing the
target JSON key, the discriminator field name, or the discriminator
value) is not a detected configuration error; parseUnionTag returns
none for it, the collection scan silently treats the field as a
non-union field, and processing continues without failure. -/
theorem c9_amended_illformed_union_tags_skipped :
    (∀ fields : GoFields,
      collectUnionFields (.vstruct fields) =
        ((fields.toList.map (fun fv => fv.1)).enumFrom 0).filterMap (fun p =>
          (parseUnionTag p.2.sproutTag).map (fun info => { info with fieldIndex := p.1 }))) ∧
    parseUnionTag "when=Type:a" = none ∧
    parseUnionTag "union=properties" = none ∧
    parseUnionTag "union=properties,when=Type" = none ∧
    parseUnionTag "" = none ∧
    (∀ (fields : List (FieldMeta × GoVal)) (bodyMap : List (String × JVal)),
      unmarshalUnionFields fields bodyMap [] = .ok fields) := by
  refine ⟨fun fields => ?_, by decide, by decide, by decide, by decide, fun fields bodyMap => rfl⟩
  simp [collectUnionFields, derefType, collectUnionFieldsLoop_enumFrom]

/-- C10 counterexample: an unexported header-tagged string field with a
non-empty value does produce a header entry, contradicting the claimed
exported-fields-only restriction. -/
theorem c10_counterexample_unexported_header_emitted :
    extractHeaders (.vstruct (.fcons
      { name := "secret", headerTag := "X-Secret", exported := false } (.vstr "v") .fnil)) =
      [("X-Secret", "v")] := by decide

/-- Round trip between Lean lists and field lists. -/
theorem GoFields.toList_ofList (l : List (FieldMeta × GoVal)) : (GoFields.ofList l).toList = l := by
  induction l with
  | nil => rfl
  | cons p rest ih =>
      obtain ⟨m, v⟩ := p
      simp [GoFields.ofList, GoFields.toList, ih]

/-- Map lookup over an absent key skips a prefix. -/
theorem mapLookup_append_none {α : Type} (l1 l2 : List (String × α)) (k : String)
    (h : mapLookup l1 k = none) : mapLookup (l1 ++ l2) k = mapLookup l2 k := by
  induction l1 with
  | nil => rfl
  | cons e rest ih =>
      obtain ⟨k', v'⟩ := e
      by_cases hk : k' = k
      · simp [mapLookup, List.find?_cons, hk] at h
      · simp only [mapLookup, List.cons_append, List.find?_cons] at h ⊢
        simp only [show (decide (k' = k)) = false by simp [hk]] at h ⊢
        exact ih h

/-- Inserting a fresh key appends the binding. -/
theorem mapInsert_lookup_none {α : Type} (acc : List (String × α)) (k : String) (v : α)
    (h : mapLookup acc k = none) : mapInsert acc k v = acc ++ [(k, v)] := by
  induction acc with
  | nil => rfl
  | cons e rest ih =>
      obtain ⟨k', v'⟩ := e
      by_cases hk : k' = k
      · simp [mapLookup, List.find?_cons, hk] at h
      · simp only [mapLookup, List.find?_cons] at h
        simp only [show (decide (k' = k)) = false by simp [hk]] at h
        simp [mapInsert, hk, ih h]

/-- Membership in the extractHeaders field loop, relative to an
accumulator whose keys do not collide with the remaining header tags. -/
theorem extractHeadersLoop_mem (fs : List (FieldMeta × GoVal)) (acc : List (String × String))
    (hacc : ∀ fv ∈ fs, fv.1.headerTag = "" ∨ mapLookup acc fv.1.headerTag = none)
    (hdist : fs.Pairwise (fun a b => a.1.headerTag = "" ∨ a.1.headerTag ≠ b.1.headerTag))
    (n s : String) :
    (n, s) ∈ extractHeadersLoop fs acc ↔
      ((n, s) ∈ acc ∨ ∃ fv ∈ fs, fv.1.headerTag = n ∧ n ≠ "" ∧ fv.2 = .vstr s ∧ s ≠ "") := by
  induction fs generalizing acc with
  | nil => simp [extractHeadersLoop]
  | cons fv fs ih =>
      obtain ⟨m, v⟩ := fv
      have hdist' := (List.pairwise_cons.mp hdist).2
      have hstep : ∀ (acc' : List (String × String)),
          (∀ fv ∈ fs, fv.1.headerTag = "" ∨ mapLookup acc' fv.1.headerTag = none) →
          ((n, s) ∈ extractHeadersLoop fs acc' ↔
            ((n, s) ∈ acc' ∨ ∃ fv ∈ fs, fv.1.headerTag = n ∧ n ≠ "" ∧ fv.2 = .vstr s ∧ s ≠ "")) :=
        fun acc' h' => ih acc' h' hdist'
      have tailOnly : ∀ w : GoVal,
          extractHeadersLoop ((m, w) :: fs) acc = extractHeadersLoop fs acc →
          ((∀ z, w = GoVal.vstr z → z = "" ∨ m.headerTag = "") →
          ((n, s) ∈ extractHeadersLoop ((m, w) :: fs) acc ↔
            ((n, s) ∈ acc ∨ ∃ fv ∈ (m, w) :: fs,
              fv.1.headerTag = n ∧ n ≠ "" ∧ fv.2 = GoVal.vstr s ∧ s ≠ ""))) := by
        intro w hw hz
        rw [hw, hstep acc (fun fv h => hacc fv (by simp [h]))]
        constructor
        · rintro (h | ⟨fv, hfv, hrest⟩)
          · exact Or.inl h
          · exact Or.inr ⟨fv, by simp [hfv], hrest⟩
        · rintro (h | ⟨fv, hfv, h1, h2, h3, h4⟩)
          · exact Or.inl h
          · rcases List.mem_cons.mp hfv with heq | hfv'
            · rw [heq] at h1 h3
              simp only at h1 h3
              rcases hz s h3 with hzz | hzz
              · exact absurd hzz h4
              · have hn : n = "" := by rw [← h1]; exact hzz
                exact absurd hn h2
            · exact Or.inr ⟨fv, hfv', h1, h2, h3, h4⟩
      by_cases ht : m.headerTag = ""
      · exact tailOnly v (by cases v <;> simp [extractHeadersLoop, ht])
          (fun z _ => Or.inr ht)
      · cases v with
        | vstr s' =>
            by_cases hs' : s' = ""
            · subst hs'
              exact tailOnly (GoVal.vstr "") (by simp [extractHeadersLoop, ht])
                (fun z hz => Or.inl (by injection hz with h; exact h.symm))
            · have hlk : mapLookup acc m.headerTag = none := by
                rcases hacc (m, GoVal.vstr s') (by simp) with h | h
                · exact absurd h ht
                · exact h
              have hrw : extractHeadersLoop ((m, GoVal.vstr s') :: fs) acc =
                  extractHeadersLoop fs (acc ++ [(m.headerTag, s')]) := by
                simp [extractHeadersLoop, ht, hs', mapInsert_lookup_none acc _ _ hlk]
              rw [hrw, hstep (acc ++ [(m.headerTag, s')]) ?side]
              case side =>
                intro fv hfv
                rcases hacc fv (by simp [hfv]) with h | h
                · exact Or.inl h
                · right
                  rw [mapLookup_append_none _ _ _ h]
                  rcases (List.pairwise_cons.mp hdist).1 fv hfv with hmt | hmt
                  · exact absurd hmt ht
                  · simp only at hmt
                    have hd : (decide (m.headerTag = fv.1.headerTag)) = false := by
                      simp only [decide_eq_false_iff_not]
                      exact hmt
                    simp [mapLookup, List.find?_cons, hd]
              constructor
              · rintro (h | ⟨fv, hfv, hrest⟩)
                · rcases List.mem_append.mp h with h | h
                  · exact Or.inl h
                  · simp only [List.mem_singleton, Prod.mk.injEq] at h
                    exact Or.inr ⟨(m, GoVal.vstr s'), by simp, h.1.symm,
                      by rw [h.1]; exact ht, by simp only; rw [h.2], by rw [h.2]; exact hs'⟩
                · exact Or.inr ⟨fv, by simp [hfv], hrest⟩
              · rintro (h | ⟨fv, hfv, h1, h2, h3, h4⟩)
                · exact Or.inl (List.mem_append.mpr (Or.inl h))
                · rcases List.mem_cons.mp hfv with heq | hfv'
                  · rw [heq] at h1 h3
                    simp only at h1 h3
                    have hss : s' = s := by injection h3
                    exact Or.inl (List.mem_append.mpr (Or.inr (by simp [← h1, hss])))
                  · exact Or.inr ⟨fv, hfv', h1, h2, h3, h4⟩
        | vint k =>
            exact tailOnly (GoVal.vint k) (by simp [extractHeadersLoop, ht])
              (fun z hz => by simp at hz)
        | vuint k =>
            exact tailOnly (GoVal.vuint k) (by simp [extractHeadersLoop, ht])
              (fun z hz => by simp at hz)
        | vbool b =>
            exact tailOnly (GoVal.vbool b) (by simp [extractHeadersLoop, ht])
              (fun z hz => by simp at hz)
        | vptrNil z0 =>
            exact tailOnly (GoVal.vptrNil z0) (by simp [extractHeadersLoop, ht])
              (fun z hz => by simp at hz)
        | vptrSome x =>
            exact tailOnly (GoVal.vptrSome x) (by simp [extractHeadersLoop, ht])
              (fun z hz => by simp at hz)
        | vstruct gf =>
            exact tailOnly (GoVal.vstruct gf) (by simp [extractHeadersLoop, ht])
              (fun z hz => by simp at hz)

/-- C10 as amended: header derivation emits an entry exactly for the
fields whose header tag is non-empty, whose value is of string kind and
non-empty, with no regard to the field's exportedness (stated for
structs whose non-empty header tags are distinct, so that no entry
overwrites another). -/
theorem c10_amended_header_membership (fs : List (FieldMeta × GoVal))
    (hdist : fs.Pairwise (fun a b => a.1.headerTag = "" ∨ a.1.headerTag ≠ b.1.headerTag))
    (n s : String) :
    (n, s) ∈ extractHeaders (.vstruct (GoFields.ofList fs)) ↔
      ∃ fv ∈ fs, fv.1.headerTag = n ∧ n ≠ "" ∧ fv.2 = .vstr s ∧ s ≠ "" := by
  have h : extractHeaders (.vstruct (GoFields.ofList fs)) = extractHeadersLoop fs [] := by
    simp [extractHeaders, GoFields.toList_ofList]
  rw [h, extractHeadersLoop_mem fs [] (fun fv _ => Or.inr rfl) hdist n s]
  simp

/-- Witness for the amended C10 statement: an unexported string header
field emits its entry, while an int-kind header field appears nowhere. -/
theorem c10_amended_witness :
    ("X-A", "v") ∈ extractHeaders (.vstruct (GoFields.ofList
      [({ name := "a", headerTag := "X-A", exported := false }, .vstr "v"),
       ({ name := "N", headerTag := "X-N" }, .vint 3)])) :=
  (c10_amended_header_membership
      [({ name := "a", headerTag := "X-A", exported := false }, .vstr "v"),
       ({ name := "N", headerTag := "X-N" }, .vint 3)] (by decide) "X-A" "v").mpr
    ⟨({ name := "a", headerTag := "X-A", exported := false }, .vstr "v"),
      by decide, rfl, by decide, rfl, by decide⟩

/-- C7: evaluation of the projection at an input the claim covers.  The
embedded substructure's omit-if-empty field with a zero value is still
emitted by the flattening branch, while the identical directly-declared
field would be dropped; this contradicts the claimed identical
treatment (and the function's own stated intent of matching standard
JSON encoding). -/
theorem c7_embedded_omitempty_divergence :
    toJSONMap (.vstruct (.fcons { name := "testBaseError", anonymous := true }
      (.vstruct (.fcons { name := "Code", jsonTag := "code" } (.vstr "NOT_FOUND")
        (.fcons { name := "Message", jsonTag := "message,omitempty" } (.vstr "") .fnil)))
      .fnil)) = [("code", .vstr "NOT_FOUND"), ("message", .vstr "")] ∧
    directFieldStep { name := "Message", jsonTag := "message,omitempty" } (.vstr "") [] = [] := by
  exact ⟨by decide, by decide⟩

/-- Binding a concatenation of field lists: a bound prefix contributes its
results and the rest binds independently. -/
theorem bindRequest_append (params query headers : List (String × String))
    (l1 l2 : List (FieldMeta × GoVal)) (bound : List (FieldMeta × GoVal))
    (h : bindRequest params query headers l1 = .ok bound) :
    bindRequest params query headers (l1 ++ l2) =
      (bindRequest params query headers l2).map (fun l2' => bound ++ l2') := by
  induction l1 generalizing bound with
  | nil =>
      simp [bindRequest] at h
      subst h
      cases h2 : bindRequest params query headers l2 <;> simp [Except.map, h2]
  | cons fv rest ih =>
      obtain ⟨m, v⟩ := fv
      cases hb : bindOneField params query headers m v with
      | error e => simp [bindRequest, hb] at h
      | ok v' =>
          cases hr : bindRequest params query headers rest with
          | error e => simp [bindRequest, hb, hr] at h
          | ok rb =>
              simp [bindRequest, hb, hr] at h
              subst h
              rw [List.cons_append]
              simp only [bindRequest, hb, ih rb hr]
              cases h2 : bindRequest params query headers l2 <;> simp [Except.map, h2]

/-- C5: for path-, query- and header-tagged scalar fields, an empty
source string leaves the field at its current (zero) value without
error; a source string that fails conversion produces a classified
Parse error carrying the field's declared source name and the parse
cause; and the binding loop stops at the first such failure, so no
later field is bound (the result is the same error whatever the later
fields are). -/
theorem c5_binder_parse_errors :
    (∀ v : GoVal, setFieldValue v "" = .ok v) ∧
    (∀ (params query headers : List (String × String)) (m : FieldMeta) (v : GoVal) (c : String),
      m.exported = true → m.pathTag ≠ "" →
      setFieldValue v (sourceGet params m.pathTag) = .error c →
      bindOneField params query headers m v = .error (.sproutError .parse
        ("invalid path parameter \x27" ++ m.pathTag ++ "\x27") (.errorString c))) ∧
    (∀ (params query headers : List (String × String)) (m : FieldMeta) (v : GoVal) (c : String),
      m.exported = true → m.pathTag = "" → m.queryTag ≠ "" →
      setFieldValue v (sourceGet query m.queryTag) = .error c →
      bindOneField params query headers m v = .error (.sproutError .parse
        ("invalid query parameter \x27" ++ m.queryTag ++ "\x27") (.errorString c))) ∧
    (∀ (params query headers : List (String × String)) (m : FieldMeta) (v : GoVal) (c : String),
      m.exported = true → m.pathTag = "" → m.queryTag = "" → m.headerTag ≠ "" →
      setFieldValue v (sourceGet headers m.headerTag) = .error c →
      bindOneField params query headers m v = .error (.sproutError .parse
        ("invalid header \x27" ++ m.headerTag ++ "\x27") (.errorString c))) ∧
    (∀ (params query headers : List (String × String)) (pre : List (FieldMeta × GoVal))
      (bound : List (FieldMeta × GoVal)) (m : FieldMeta) (v : GoVal) (e : GoError)
      (post post' : List (FieldMeta × GoVal)),
      bindRequest params query headers pre = .ok bound →
      bindOneField params query headers m v = .error e →
      bindRequest params query headers (pre ++ (m, v) :: post) = .error e ∧
      bindRequest params query headers (pre ++ (m, v) :: post) =
        bindRequest params query headers (pre ++ (m, v) :: post')) := by
  refine ⟨fun v => by simp [setFieldValue], ?_, ?_, ?_, ?_⟩
  · intro params query headers m v c hexp hp hsf
    simp [bindOneField, hexp, hp, hsf]
  · intro params query headers m v c hexp hp hq hsf
    simp [bindOneField, hexp, hp, hq, hsf]
  · intro params query headers m v c hexp hp hq hh hsf
    simp [bindOneField, hexp, hp, hq, hh, hsf]
  · intro params query headers pre bound m v e post post' hpre hf
    have h1 : bindRequest params query headers (pre ++ (m, v) :: post) = .error e := by
      rw [bindRequest_append params query headers pre ((m, v) :: post) bound hpre]
      simp [bindRequest, hf, Except.map]
    have h2 : bindRequest params query headers (pre ++ (m, v) :: post') = .error e := by
      rw [bindRequest_append params query headers pre ((m, v) :: post') bound hpre]
      simp [bindRequest, hf, Except.map]
    exact ⟨h1, h1.trans h2.symm⟩

/-- Witness for C5 at concrete fields: an int field bound from
query "page" = "abc" fails with the Parse classification carrying the
source name and the strconv cause, and a later field changes nothing. -/
theorem c5_binder_parse_errors_witness :
    setFieldValue (.vint 0) "" = .ok (.vint 0) ∧
    bindOneField [] [("page", "abc")] [] { name := "Page", queryTag := "page" } (.vint 0) =
      .error (.sproutError .parse "invalid query parameter \x27page\x27"
        (.errorString "failed to parse int: strconv.ParseInt: parsing \x22abc\x22: invalid syntax")) ∧
    bindRequest [] [("page", "abc")] []
        [({ name := "UserID", pathTag := "id" }, .vstr ""),
         ({ name := "Page", queryTag := "page" }, .vint 0),
         ({ name := "Later", queryTag := "later" }, .vbool false)] =
      .error (.sproutError .parse "invalid query parameter \x27page\x27"
        (.errorString "failed to parse int: strconv.ParseInt: parsing \x22abc\x22: invalid syntax")) := by
  refine ⟨c5_binder_parse_errors.1 (.vint 0), ?_, ?_⟩
  · exact c5_binder_parse_errors.2.2.1 [] [("page", "abc")] []
      { name := "Page", queryTag := "page" } (.vint 0)
      "failed to parse int: strconv.ParseInt: parsing \x22abc\x22: invalid syntax"
      rfl rfl (by decide) rfl
  · exact (c5_binder_parse_errors.2.2.2.2 [] [("page", "abc")] []
      [({ name := "UserID", pathTag := "id" }, .vstr "")]
      [({ name := "UserID", pathTag := "id" }, .vstr "")]
      { name := "Page", queryTag := "page" } (.vint 0)
      (.sproutError .parse "invalid query parameter \x27page\x27"
        (.errorString "failed to parse int: strconv.ParseInt: parsing \x22abc\x22: invalid syntax"))
      [({ name := "Later", queryTag := "later" }, .vbool false)] []
      rfl rfl).1

/-- The before/after partition fold of gatherRouteMiddleware, in closed
form over an arbitrary accumulator. -/
theorem gatherFold_closed (r : Int) (layers : List middlewareLayer) (acc1 acc2 : List MWProg) :
    layers.foldl (fun acc layer =>
      if layer.order < r then (acc.1 ++ [layer.fn], acc.2)
      else (acc.1, acc.2 ++ [layer.fn])) (acc1, acc2) =
    (acc1 ++ (layers.filter (fun l => decide (l.order < r))).map middlewareLayer.fn,
     acc2 ++ (layers.filter (fun l => ! decide (l.order < r))).map middlewareLayer.fn) := by
  induction layers generalizing acc1 acc2 with
  | nil => simp
  | cons hd tl ih =>
      by_cases h : hd.order < r <;>
        simp [List.foldl_cons, h, ih, List.filter_cons]

/-- The executed trace of a chain is always an order-preserving prefix of
the chain's ids. -/
theorem runChain_trace_take (chain : List MWProg) :
    ∃ n, (runChain chain).1 = (chain.map MWProg.id).take n := by
  induction chain with
  | nil => exact ⟨0, rfl⟩
  | cons m rest ih =>
      match hadv : m.advance with
      | none => exact ⟨1, by simp [runChain, hadv]⟩
      | some none =>
          obtain ⟨n, hn⟩ := ih
          exact ⟨n + 1, by simp [runChain, hadv, hn]⟩
      | some (some e) =>
          by_cases he : isErrNext e = true
          · obtain ⟨n, hn⟩ := ih
            exact ⟨n + 1, by simp [runChain, hadv, he, hn]⟩
          · exact ⟨1, by simp [runChain, hadv, he]⟩

/-- C1: for a matched route entry of order r, the middleware collected
from the root-to-owner ancestor chain and sorted by registration order
is partitioned exactly into the layers of order < r (all placed, in
order, before the typed handler in the execution chain) and the layers
of order ≥ r (all placed after it), at any nesting depth; and execution
follows the chain order, so every executed before-layer runs before the
handler and every executed after-layer runs after it. -/
theorem c1_route_middleware_partition (entry : routeEntry) :
    (gatherRouteMiddleware entry).1 =
      ((collectMiddlewareLayers (ancestorChain entry.owner)).filter
        (fun l => decide (l.order < entry.order))).map middlewareLayer.fn ∧
    (gatherRouteMiddleware entry).2 =
      ((collectMiddlewareLayers (ancestorChain entry.owner)).filter
        (fun l => decide (entry.order ≤ l.order))).map middlewareLayer.fn ∧
    (dispatchChain entry)[(gatherRouteMiddleware entry).1.length +
      entry.routeMiddleware.length]? = some entry.fn ∧
    (∀ l ∈ collectMiddlewareLayers (ancestorChain entry.owner), l.order < entry.order →
      ∃ i, i < (gatherRouteMiddleware entry).1.length + entry.routeMiddleware.length ∧
        (dispatchChain entry)[i]? = some l.fn) ∧
    (∀ l ∈ collectMiddlewareLayers (ancestorChain entry.owner), entry.order ≤ l.order →
      ∃ i, (gatherRouteMiddleware entry).1.length + entry.routeMiddleware.length < i ∧
        (dispatchChain entry)[i]? = some l.fn) ∧
    ∃ n, (runChain (dispatchChain entry)).1 = ((dispatchChain entry).map MWProg.id).take n := by
  have hfilter : ∀ l : middlewareLayer,
      (! decide (l.order < entry.order)) = decide (entry.order ≤ l.order) := by
    intro l
    by_cases h : l.order < entry.order <;> simp [h, not_lt.mp, le_of_not_lt]
  have hgather : gatherRouteMiddleware entry =
      (((collectMiddlewareLayers (ancestorChain entry.owner)).filter
          (fun l => decide (l.order < entry.order))).map middlewareLayer.fn,
       ((collectMiddlewareLayers (ancestorChain entry.owner)).filter
          (fun l => decide (entry.order ≤ l.order))).map middlewareLayer.fn) := by
    rw [gatherRouteMiddleware, gatherFold_closed]
    simp only [List.nil_append]
    rw [List.filter_congr (fun l _ => hfilter l)]
  have hb : (gatherRouteMiddleware entry).1 =
      ((collectMiddlewareLayers (ancestorChain entry.owner)).filter
        (fun l => decide (l.order < entry.order))).map middlewareLayer.fn := by rw [hgather]
  have ha : (gatherRouteMiddleware entry).2 =
      ((collectMiddlewareLayers (ancestorChain entry.owner)).filter
        (fun l => decide (entry.order ≤ l.order))).map middlewareLayer.fn := by rw [hgather]
  have hchain : dispatchChain entry = (gatherRouteMiddleware entry).1 ++
      (entry.routeMiddleware ++ ([entry.fn] ++ (gatherRouteMiddleware entry).2)) := by
    simp [dispatchChain]
  have hhandler : (dispatchChain entry)[(gatherRouteMiddleware entry).1.length +
      entry.routeMiddleware.length]? = some entry.fn := by
    rw [hchain]
    rw [List.getElem?_append_right (by omega)]
    have : (gatherRouteMiddleware entry).1.length + entry.routeMiddleware.length -
        (gatherRouteMiddleware entry).1.length = entry.routeMiddleware.length := by omega
    rw [this, List.getElem?_append_right (by omega)]
    simp
  refine ⟨hb, ha, hhandler, ?_, ?_, runChain_trace_take _⟩
  · intro l hl hord
    have hmem : l.fn ∈ (gatherRouteMiddleware entry).1 := by
      rw [hb]
      exact List.mem_map_of_mem _ (List.mem_filter.mpr ⟨hl, by simp [hord]⟩)
    obtain ⟨j, hj, hv⟩ := List.mem_iff_getElem.mp hmem
    refine ⟨j, by omega, ?_⟩
    rw [hchain, List.getElem?_append_left hj]
    simp [List.getElem?_eq_getElem hj, hv]
  · intro l hl hord
    have hmem : l.fn ∈ (gatherRouteMiddleware entry).2 := by
      rw [ha]
      exact List.mem_map_of_mem _ (List.mem_filter.mpr ⟨hl, by simp [hord]⟩)
    obtain ⟨j, hj, hv⟩ := List.mem_iff_getElem.mp hmem
    refine ⟨(gatherRouteMiddleware entry).1.length + entry.routeMiddleware.length + 1 + j,
      by omega, ?_⟩
    rw [hchain]
    rw [List.getElem?_append_right (by omega)]
    have h1 : (gatherRouteMiddleware entry).1.length + entry.routeMiddleware.length + 1 + j -
        (gatherRouteMiddleware entry).1.length = entry.routeMiddleware.length + 1 + j := by omega
    rw [h1, List.getElem?_append_right (by omega)]
    have h2 : entry.routeMiddleware.length + 1 + j - entry.routeMiddleware.length = 1 + j := by
      omega
    rw [h2, List.getElem?_append_right (by simp)]
    simp [List.getElem?_eq_getElem hj, hv]

/-! ### The flat scalar payload family and its codec round trip -/

/-- Scalar kinds: the value kinds a flat union payload's fields hold. -/
def isScalar : GoVal → Bool
  | .vstr _ => true
  | .vint _ => true
  | .vuint _ => true
  | .vbool _ => true
  | _ => false

/-- Zero the values of a field list, keeping the metadata. -/
def zeroFields (fs : List (FieldMeta × GoVal)) : List (FieldMeta × GoVal) :=
  fs.map (fun fv => (fv.1, fv.2.zeroOf))

/-- A payload field the codec handles bijectively: exported, emitted under
a non-empty JSON name, not subject to omitempty, of scalar kind. -/
def flatPayloadField (m : FieldMeta) (v : GoVal) : Bool :=
  m.exported && (parseJSONTag m).Name ≠ "" && !(parseJSONTag m).OmitEmpty && isScalar v

/-- A flat payload: every field is a flat payload field and the JSON names
are pairwise distinct. -/
def FlatPayload (fs : List (FieldMeta × GoVal)) : Prop :=
  (∀ fv ∈ fs, flatPayloadField fv.1 fv.2 = true) ∧
  (fs.map (fun fv => (parseJSONTag fv.1).Name)).Pairwise (fun a b => a ≠ b)

/-- Closed form of the json encoder on a flat payload: every field is
emitted, in order, under its JSON name. -/
theorem encodeJSONFields_flat (pf : List (FieldMeta × GoVal))
    (h : ∀ fv ∈ pf, flatPayloadField fv.1 fv.2 = true) :
    encodeJSONFields (GoFields.ofList pf) =
      pf.map (fun fv => ((parseJSONTag fv.1).Name, encodeJSON fv.2)) := by
  induction pf with
  | nil => rfl
  | cons fv rest ih =>
      obtain ⟨m, v⟩ := fv
      have hm := h (m, v) (by simp)
      simp only [flatPayloadField, Bool.and_eq_true, Bool.not_eq_true', decide_eq_true_eq] at hm
      simp [GoFields.ofList, encodeJSONFields, hm.1.1.1, hm.1.1.2, hm.1.2,
        ih (fun fv hfv => h fv (by simp [hfv]))]

/-- Decoding a scalar's own encoding into its zero restores the value. -/
theorem decodeScalar_zero_encode (v : GoVal) (h : isScalar v = true) :
    decodeScalar v.zeroOf (encodeJSON v) = .ok v := by
  cases v <;> simp_all [isScalar, decodeScalar, encodeJSON, GoVal.zeroOf]

/-- A head field no entry key matches passes through the object decode. -/
theorem decodeFlatObj_cons_skip (m : FieldMeta) (v : GoVal) (fs : List (FieldMeta × GoVal))
    (entries : List (String × JVal))
    (h : ∀ ent ∈ entries, jsonFieldMatches m ent.1 = false) :
    decodeFlatObj ((m, v) :: fs) entries =
      match decodeFlatObj fs entries with
      | .error e => .error e
      | .ok fs' => .ok ((m, v) :: fs') := by
  induction entries generalizing fs with
  | nil => simp [decodeFlatObj]
  | cons ent rest ih =>
      obtain ⟨k, j⟩ := ent
      have hk := h (k, j) (by simp)
      simp only [decodeFlatObj, setFlatField, hk, Bool.false_eq_true, if_false]
      cases hs : setFlatField fs k j with
      | error e => rfl
      | ok fs' => exact ih fs' (fun ent hent => h ent (by simp [hent]))

/-- Decoding a flat payload's own encoding into its zeroed fields restores
every field value. -/
theorem decodeFlatObj_roundtrip (pf : List (FieldMeta × GoVal)) (h : FlatPayload pf) :
    decodeFlatObj (zeroFields pf)
      (pf.map (fun fv => ((parseJSONTag fv.1).Name, encodeJSON fv.2))) = .ok pf := by
  induction pf with
  | nil => rfl
  | cons fv rest ih =>
      obtain ⟨m, v⟩ := fv
      obtain ⟨hall, hpw⟩ := h
      have hm := hall (m, v) (by simp)
      simp only [flatPayloadField, Bool.and_eq_true, Bool.not_eq_true', decide_eq_true_eq] at hm
      have hmatch : jsonFieldMatches m (parseJSONTag m).Name = true := by
        simp [jsonFieldMatches, hm.1.1.1, hm.1.1.2]
      have hz : zeroFields ((m, v) :: rest) = (m, v.zeroOf) :: zeroFields rest := rfl
      rw [List.map_cons, hz]
      simp only [decodeFlatObj, setFlatField, hmatch, if_true,
        decodeScalar_zero_encode v hm.2]
      have hskip : ∀ ent ∈ rest.map (fun fv => ((parseJSONTag fv.1).Name, encodeJSON fv.2)),
          jsonFieldMatches m ent.1 = false := by
        intro ent hent
        obtain ⟨fv', hfv', hev⟩ := List.mem_map.mp hent
        have hne : (parseJSONTag m).Name ≠ (parseJSONTag fv'.1).Name :=
          (List.pairwise_cons.mp hpw).1 (parseJSONTag fv'.1).Name
            (List.mem_map_of_mem _ hfv')
        simp [jsonFieldMatches, ← hev]
        intro _ _
        exact fun hh => hne hh
      rw [decodeFlatObj_cons_skip m v (zeroFields rest) _ hskip]
      rw [ih ⟨fun fv hfv => hall fv (by simp [hfv]), (List.pairwise_cons.mp hpw).2⟩]

/-- json.Unmarshal of a flat payload's encoding into a freshly zeroed
struct of the same shape restores the payload. -/
theorem jsonUnmarshalInto_flat_roundtrip (pf : List (FieldMeta × GoVal)) (h : FlatPayload pf) :
    jsonUnmarshalInto (.vstruct (GoFields.ofList (zeroFields pf)))
      (encodeJSON (.vstruct (GoFields.ofList pf))) = .ok (.vstruct (GoFields.ofList pf)) := by
  have henc : encodeJSON (.vstruct (GoFields.ofList pf)) =
      .jobj (pf.map (fun fv => ((parseJSONTag fv.1).Name, encodeJSON fv.2))) := by
    rw [show encodeJSON (.vstruct (GoFields.ofList pf)) =
      .jobj (encodeJSONFields (GoFields.ofList pf)) from rfl, encodeJSONFields_flat pf h.1]
  rw [henc]
  simp only [jsonUnmarshalInto, GoFields.toList_ofList]
  rw [decodeFlatObj_roundtrip pf h]

/-- The union serializer's loop over a concatenation of field lists. -/
theorem serializeUnionFieldsLoop_append (all l1 l2 : List (FieldMeta × GoVal))
    (res : List (String × GoVal)) :
    serializeUnionFieldsLoop all (l1 ++ l2) res =
      serializeUnionFieldsLoop all l2 (serializeUnionFieldsLoop all l1 res) := by
  induction l1 generalizing res with
  | nil => rfl
  | cons fv rest ih =>
      obtain ⟨m, v⟩ := fv
      simp [serializeUnionFieldsLoop, ih]

/-- A stretch of fields whose union steps are all identities leaves the
result untouched. -/
theorem serializeUnionFieldsLoop_inactive (all l : List (FieldMeta × GoVal))
    (res : List (String × GoVal))
    (h : ∀ fv ∈ l, ∀ r : List (String × GoVal), serializeUnionStep all fv.1 fv.2 r = r) :
    serializeUnionFieldsLoop all l res = res := by
  induction l generalizing res with
  | nil => rfl
  | cons fv rest ih =>
      obtain ⟨m, v⟩ := fv
      simp only [serializeUnionFieldsLoop, h (m, v) (by simp) res]
      exact ih res (fun fv hfv => h fv (by simp [hfv]))

/-- A field without a parseable union tag contributes nothing. -/
theorem serializeUnionStep_parse_none (all : List (FieldMeta × GoVal)) (m : FieldMeta)
    (val : GoVal) (res : List (String × GoVal)) (h : parseUnionTag m.sproutTag = none) :
    serializeUnionStep all m val res = res := by
  simp [serializeUnionStep, h]

/-- A union field whose discriminator value does not match contributes
nothing. -/
theorem serializeUnionStep_mismatch (all : List (FieldMeta × GoVal)) (m : FieldMeta)
    (val : GoVal) (res : List (String × GoVal)) (info : unionFieldInfo) (dm : FieldMeta)
    (dv : GoVal) (hp : parseUnionTag m.sproutTag = some info)
    (hf : fieldByName all info.discriminatorField = some (dm, dv))
    (hv : dv.reflectString ≠ info.discriminatorValue) :
    serializeUnionStep all m val res = res := by
  simp [serializeUnionStep, hp, hf, hv]

/-- Looking up the key just inserted yields the inserted value. -/
theorem mapLookup_mapInsert_self {α : Type} (m : List (String × α)) (k : String) (v : α) :
    mapLookup (mapInsert m k v) k = some v := by
  induction m with
  | nil => simp [mapInsert, mapLookup, List.find?_cons]
  | cons e rest ih =>
      obtain ⟨k', v'⟩ := e
      by_cases hk : k' = k <;> simp [mapInsert, mapLookup, List.find?_cons, hk] <;>
        simpa [mapLookup] using ih

/-- Reading the raw body map is reading the serialized map through the
encoder. -/
theorem mapLookup_bodyMapOf (m : List (String × GoVal)) (k : String) :
    mapLookup (bodyMapOf m) k = (mapLookup m k).map encodeJSON := by
  induction m with
  | nil => rfl
  | cons e rest ih =>
      obtain ⟨k', v'⟩ := e
      by_cases hk : k' = k <;> simp [bodyMapOf, mapLookup, List.find?_cons, hk] <;>
        simpa [bodyMapOf, mapLookup] using ih

/-- Element lookup in an enumeration. -/
theorem enumFrom_getElem? {α : Type} (n : Nat) (l : List α) (i : Nat) :
    (List.enumFrom n l)[i]? = l[i]?.map (fun a => (n + i, a)) := by
  induction l generalizing n i with
  | nil => simp
  | cons a rest ih =>
      cases i with
      | zero => simp [List.enumFrom]
      | succ i =>
          have harith : n + 1 + i = n + (i + 1) := by omega
          simp [List.enumFrom, ih (n + 1) i, harith]

/-- Membership in an enumeration determines the element at the index. -/
theorem mem_enumFrom_getElem? {α : Type} (l : List α) :
    ∀ (n j : Nat) (a : α), (j, a) ∈ List.enumFrom n l → n ≤ j ∧ l[j - n]? = some a := by
  induction l with
  | nil => intro n j a h; simp [List.enumFrom] at h
  | cons x rest ih =>
      intro n j a h
      rw [List.enumFrom] at h
      rcases List.mem_cons.mp h with heq | hmem
      · rw [Prod.mk.injEq] at heq
        obtain ⟨hj, ha⟩ := heq
        subst hj
        subst ha
        exact ⟨le_refl _, by simp⟩
      · obtain ⟨hle, hget⟩ := ih (n + 1) j a hmem
        refine ⟨by omega, ?_⟩
        have hj : j - n = (j - (n + 1)) + 1 := by omega
        rw [hj]
        simpa using hget

/-- An indexed element of a list appears in its enumeration. -/
theorem enumFrom_mem_intro {α : Type} (l : List α) (n j : Nat) (a : α)
    (h : l[j]? = some a) : (n + j, a) ∈ List.enumFrom n l := by
  have he := enumFrom_getElem? n l j
  rw [h] at he
  exact List.getElem?_mem he

/-- The union descriptors of a struct built from a field list. -/
theorem collectUnionFields_ofList (F : List (FieldMeta × GoVal)) :
    collectUnionFields (.vstruct (GoFields.ofList F)) =
      collectUnionFieldsLoop 0 (F.map (fun fv => fv.1)) := by
  simp [collectUnionFields, derefType, GoFields.toList_ofList]

/-- Eliminate membership in the collected union descriptors: the indexed
field's tag parses, and the descriptor is that parse carrying its index. -/
theorem collectUnionFields_mem_elim (F : List (FieldMeta × GoVal)) (u : unionFieldInfo)
    (h : u ∈ collectUnionFields (.vstruct (GoFields.ofList F))) :
    ∃ m, (F.map (fun fv => fv.1))[u.fieldIndex]? = some m ∧
      ∃ info, parseUnionTag m.sproutTag = some info ∧
        u = { info with fieldIndex := u.fieldIndex } := by
  rw [collectUnionFields_ofList, collectUnionFieldsLoop_enumFrom] at h
  obtain ⟨⟨j, m⟩, hmem, hf⟩ := List.mem_filterMap.mp h
  cases hp : parseUnionTag m.sproutTag with
  | none => rw [hp] at hf; simp at hf
  | some info =>
      rw [hp] at hf
      simp only [Option.map_some'] at hf
      have hf' := Option.some.inj hf
      obtain ⟨hle, hget⟩ := mem_enumFrom_getElem? (F.map (fun fv => fv.1)) 0 j m hmem
      have hj : u.fieldIndex = j := by rw [← hf']
      refine ⟨m, ?_, info, hp, ?_⟩
      · rw [hj]
        simpa using hget
      · rw [hj]
        exact hf'.symm

/-- Introduce membership in the collected union descriptors from a field
whose tag parses. -/
theorem collectUnionFields_mem_intro (F : List (FieldMeta × GoVal)) (j : Nat) (m : FieldMeta)
    (info : unionFieldInfo) (hg : (F.map (fun fv => fv.1))[j]? = some m)
    (hp : parseUnionTag m.sproutTag = some info) :
    { info with fieldIndex := j } ∈ collectUnionFields (.vstruct (GoFields.ofList F)) := by
  rw [collectUnionFields_ofList, collectUnionFieldsLoop_enumFrom]
  refine List.mem_filterMap.mpr ⟨(j, m), ?_, by simp [hp]⟩
  simpa using enumFrom_mem_intro (F.map (fun fv => fv.1)) 0 j m hg

/-- Collected descriptors carry indices at least the starting index. -/
theorem collectUnionFieldsLoop_idx_le (metas : List FieldMeta) :
    ∀ (k : Nat), ∀ u ∈ collectUnionFieldsLoop k metas, k ≤ u.fieldIndex := by
  induction metas with
  | nil => intro k u hu; simp [collectUnionFieldsLoop] at hu
  | cons m rest ih =>
      intro k u hu
      rw [collectUnionFieldsLoop] at hu
      cases hp : parseUnionTag m.sproutTag with
      | none =>
          rw [hp] at hu
          have := ih (k + 1) u hu
          omega
      | some info =>
          rw [hp] at hu
          rcases List.mem_cons.mp hu with heq | hmem
          · rw [heq]
          · have := ih (k + 1) u hmem
            omega

/-- Collected descriptors have strictly increasing field indices. -/
theorem collectUnionFieldsLoop_idx_sorted (metas : List FieldMeta) :
    ∀ (k : Nat), (collectUnionFieldsLoop k metas).Pairwise
      (fun a b => a.fieldIndex < b.fieldIndex) := by
  induction metas with
  | nil => intro k; simp [collectUnionFieldsLoop]
  | cons m rest ih =>
      intro k
      rw [collectUnionFieldsLoop]
      cases hp : parseUnionTag m.sproutTag with
      | none => exact ih (k + 1)
      | some info =>
          refine List.pairwise_cons.mpr ⟨?_, ih (k + 1)⟩
          intro u hu
          have := collectUnionFieldsLoop_idx_le rest (k + 1) u hu
          simp only
          omega

/-- Looking a field up by name ignores the value stored at a middle
position whose name differs. -/
theorem fieldByName_middle_value (l1 l2 : List (FieldMeta × GoVal)) (m : FieldMeta)
    (a b : GoVal) (n : String) (h : m.name ≠ n) :
    fieldByName (l1 ++ (m, a) :: l2) n = fieldByName (l1 ++ (m, b) :: l2) n := by
  induction l1 with
  | nil =>
      simp only [List.nil_append, fieldByName, List.find?_cons]
      have hd : (decide (m.name = n)) = false := by simp [h]
      simp [hd]
  | cons e l1 ih =>
      obtain ⟨m', v'⟩ := e
      simp only [List.cons_append, fieldByName, List.find?_cons]
      cases decide (m'.name = n) <;> simpa [fieldByName] using ih

/-- Element lookup at the split position. -/
theorem getElem?_append_middle {α : Type} (l1 l2 : List α) (x : α) :
    (l1 ++ x :: l2)[l1.length]? = some x := by
  rw [List.getElem?_append_right (le_refl _)]
  simp

/-- Updating the field at the split position replaces its value. -/
theorem updateFieldAt_middle (l1 l2 : List (FieldMeta × GoVal)) (m : FieldMeta)
    (a b : GoVal) : updateFieldAt (l1 ++ (m, a) :: l2) l1.length b = l1 ++ (m, b) :: l2 := by
  induction l1 with
  | nil => rfl
  | cons e l1 ih =>
      obtain ⟨m', v'⟩ := e
      simp [updateFieldAt, ih]

/-- Union unmarshalling over a concatenation of descriptor lists. -/
theorem unmarshalUnionFields_append (fs : List (FieldMeta × GoVal))
    (body : List (String × JVal)) (l1 l2 : List unionFieldInfo) :
    unmarshalUnionFields fs body (l1 ++ l2) =
      match unmarshalUnionFields fs body l1 with
      | .error e => .error e
      | .ok fs' => unmarshalUnionFields fs' body l2 := by
  induction l1 generalizing fs with
  | nil => simp [unmarshalUnionFields]
  | cons u rest ih =>
      simp only [List.cons_append, unmarshalUnionFields]
      cases unmarshalUnionStep fs body u with
      | error e => rfl
      | ok fs' => exact ih fs'

/-- Descriptors whose steps do not change the fields leave unmarshalling
as the identity. -/
theorem unmarshalUnionFields_skip (fs : List (FieldMeta × GoVal))
    (body : List (String × JVal)) (l : List unionFieldInfo)
    (h : ∀ u ∈ l, unmarshalUnionStep fs body u = .ok fs) :
    unmarshalUnionFields fs body l = .ok fs := by
  induction l with
  | nil => rfl
  | cons u rest ih =>
      simp only [unmarshalUnionFields, h u (by simp)]
      exact ih (fun u' hu' => h u' (by simp [hu']))

/-- A union pass whose discriminator value does not match is a no-op. -/
theorem unmarshalUnionStep_mismatch (fs : List (FieldMeta × GoVal))
    (body : List (String × JVal)) (u : unionFieldInfo) (dm : FieldMeta) (s : String)
    (hf : fieldByName fs u.discriminatorField = some (dm, .vstr s))
    (hs : s ≠ u.discriminatorValue) :
    unmarshalUnionStep fs body u = .ok fs := by
  simp [unmarshalUnionStep, hf, hs]

/-- C4: union round trip.  For a struct whose declared union fields all
reference the same string discriminator field, whose discriminator value
matches exactly one declared union field, and whose matching variant is
populated with a flat payload (the other variants nil), serializing the
struct and binding the resulting JSON body back into a freshly zeroed
struct reproduces the variant's JSON shape under the declared union key
and leaves exactly one non-nil variant field, holding the original
payload. -/
theorem c4_union_roundtrip
    (F1 F2 pf : List (FieldMeta × GoVal)) (um dm : FieldMeta)
    (dname dval : String) (u : unionFieldInfo)
    (hu : u ∈ collectUnionFields (.vstruct (GoFields.ofList
      (F1 ++ (um, .vptrSome (.vstruct (GoFields.ofList pf))) :: F2))))
    (hidx : u.fieldIndex = F1.length)
    (hdisc : ∀ u' ∈ collectUnionFields (.vstruct (GoFields.ofList
      (F1 ++ (um, .vptrSome (.vstruct (GoFields.ofList pf))) :: F2))),
      u'.discriminatorField = dname)
    (hdF : fieldByName (F1 ++ (um, .vptrSome (.vstruct (GoFields.ofList pf))) :: F2) dname =
      some (dm, .vstr dval))
    (hact : u.discriminatorValue = dval)
    (hothers : ∀ u' ∈ collectUnionFields (.vstruct (GoFields.ofList
      (F1 ++ (um, .vptrSome (.vstruct (GoFields.ofList pf))) :: F2))),
      u' ≠ u → u'.discriminatorValue ≠ dval)
    (hexp : um.exported = true)
    (hflat : FlatPayload pf)
    (hnames : ∀ u' ∈ collectUnionFields (.vstruct (GoFields.ofList
      (F1 ++ (um, .vptrSome (.vstruct (GoFields.ofList pf))) :: F2))),
      ∀ m' w', (F1 ++ (um, .vptrSome (.vstruct (GoFields.ofList pf))) :: F2)[u'.fieldIndex]? =
        some (m', w') → m'.name ≠ dname) :
    mapLookup (bodyMapOf (toJSONMap (.vstruct (GoFields.ofList
        (F1 ++ (um, .vptrSome (.vstruct (GoFields.ofList pf))) :: F2))))) u.jsonFieldName =
      some (.jobj (pf.map (fun fv => ((parseJSONTag fv.1).Name, encodeJSON fv.2)))) ∧
    unmarshalUnionFields
      (F1 ++ (um, .vptrNil (.vstruct (GoFields.ofList (zeroFields pf)))) :: F2)
      (bodyMapOf (toJSONMap (.vstruct (GoFields.ofList
        (F1 ++ (um, .vptrSome (.vstruct (GoFields.ofList pf))) :: F2)))))
      (collectUnionFields (.vstruct (GoFields.ofList
        (F1 ++ (um, .vptrSome (.vstruct (GoFields.ofList pf))) :: F2)))) =
      .ok (F1 ++ (um, .vptrSome (.vstruct (GoFields.ofList pf))) :: F2) ∧
    (F1 ++ (um, .vptrSome (.vstruct (GoFields.ofList pf))) :: F2)[u.fieldIndex]? =
      some (um, .vptrSome (.vstruct (GoFields.ofList pf))) := by
  set F : List (FieldMeta × GoVal) :=
    F1 ++ (um, .vptrSome (.vstruct (GoFields.ofList pf))) :: F2 with hF
  set F0 : List (FieldMeta × GoVal) :=
    F1 ++ (um, .vptrNil (.vstruct (GoFields.ofList (zeroFields pf)))) :: F2 with hF0
  set V : GoVal := .vptrSome (.vstruct (GoFields.ofList pf)) with hV
  -- the active slot and its metadata
  have hgetA : F[u.fieldIndex]? = some (um, V) := by
    rw [hF, hidx]
    exact getElem?_append_middle _ _ _
  have hgetA0 : F0[u.fieldIndex]? = some (um, .vptrNil (.vstruct (GoFields.ofList (zeroFields pf)))) := by
    rw [hF0, hidx]
    exact getElem?_append_middle _ _ _
  obtain ⟨mA, hmA, infoA, hpA, huA⟩ := collectUnionFields_mem_elim F u hu
  have hmapF : F.map (fun fv => fv.1) = F1.map (fun fv => fv.1) ++ um :: F2.map (fun fv => fv.1) := by
    rw [hF]
    simp
  have hgetum : (F.map (fun fv => fv.1))[u.fieldIndex]? = some um := by
    rw [hmapF, hidx, show F1.length = (F1.map (fun fv => fv.1)).length by simp]
    exact getElem?_append_middle _ _ _
  have hmum : mA = um := by
    rw [hgetum] at hmA
    exact (Option.some.inj hmA).symm
  rw [hmum] at hpA
  have hKA : infoA.jsonFieldName = u.jsonFieldName := by rw [huA]
  have hDFA : infoA.discriminatorField = u.discriminatorField := by rw [huA]
  have hDVA : infoA.discriminatorValue = u.discriminatorValue := by rw [huA]
  have hdfu : u.discriminatorField = dname := hdisc u hu
  have humname : um.name ≠ dname := hnames u hu um V hgetA
  -- inactive union steps of the serializer for every other field position
  have hinactive : ∀ (j : Nat) (fv : FieldMeta × GoVal), F[j]? = some fv → j ≠ u.fieldIndex →
      ∀ res : List (String × GoVal), serializeUnionStep F fv.1 fv.2 res = res := by
    intro j fv hj hne res
    cases hp : parseUnionTag fv.1.sproutTag with
    | none => exact serializeUnionStep_parse_none F fv.1 fv.2 res hp
    | some info =>
        have hmeta : (F.map (fun fv => fv.1))[j]? = some fv.1 := by
          rw [List.getElem?_map, hj]
          rfl
        have hu' := collectUnionFields_mem_intro F j fv.1 info hmeta hp
        have hne' : { info with fieldIndex := j } ≠ u := by
          intro heq
          have hji : u.fieldIndex = j := by rw [← heq]
          exact hne hji.symm
        have hdv : info.discriminatorValue ≠ dval :=
          hothers { info with fieldIndex := j } hu' hne'
        have hdf : info.discriminatorField = dname :=
          hdisc { info with fieldIndex := j } hu'
        refine serializeUnionStep_mismatch F fv.1 fv.2 res info dm (.vstr dval) hp ?_ ?_
        · rw [hdf]
          exact hdF
        · simpa [GoVal.reflectString] using fun hh => hdv hh.symm
  -- the active union step of the serializer
  have hstepA : ∀ res : List (String × GoVal),
      serializeUnionStep F um V res = mapInsert res u.jsonFieldName V := by
    intro res
    simp only [serializeUnionStep, hpA, hDFA, hdfu, hdF, hV, hexp, hKA]
    simp [GoVal.reflectString, hDVA, hact]
  -- the serialized map holds the variant under the union key
  have hserial : mapLookup (toJSONMap (.vstruct (GoFields.ofList F))) u.jsonFieldName =
      some V := by
    have hform : toJSONMap (.vstruct (GoFields.ofList F)) =
        serializeUnionFieldsLoop F F (toJSONMapLoop F []) := by
      simp [toJSONMap, toJSONMapCore, serializeUnionFields, GoFields.toList_ofList]
    rw [hform]
    have hsplitF : serializeUnionFieldsLoop F F (toJSONMapLoop F []) =
        serializeUnionFieldsLoop F F2
          (serializeUnionStep F um V (serializeUnionFieldsLoop F F1 (toJSONMapLoop F []))) := by
      conv_lhs => rw [hF]
      rw [serializeUnionFieldsLoop_append]
      rfl
    rw [hsplitF]
    have hF1skip : serializeUnionFieldsLoop F F1 (toJSONMapLoop F []) = toJSONMapLoop F [] := by
      refine serializeUnionFieldsLoop_inactive F F1 _ ?_
      intro fv hfv r
      obtain ⟨j, hj, hv⟩ := List.mem_iff_getElem.mp hfv
      refine hinactive j fv ?_ (by omega) r
      rw [hF, List.getElem?_append_left hj]
      simp [List.getElem?_eq_getElem hj, hv]
    rw [hF1skip, hstepA]
    have hF2skip : serializeUnionFieldsLoop F F2
        (mapInsert (toJSONMapLoop F []) u.jsonFieldName V) =
        mapInsert (toJSONMapLoop F []) u.jsonFieldName V := by
      refine serializeUnionFieldsLoop_inactive F F2 _ ?_
      intro fv hfv r
      obtain ⟨j, hj, hv⟩ := List.mem_iff_getElem.mp hfv
      refine hinactive (F1.length + 1 + j) fv ?_ (by omega) r
      rw [hF, List.getElem?_append_right (by omega)]
      have h1 : F1.length + 1 + j - F1.length = j + 1 := by omega
      rw [h1, List.getElem?_cons_succ]
      simp [List.getElem?_eq_getElem hj, hv]
    rw [hF2skip]
    exact mapLookup_mapInsert_self _ _ _
  -- the raw body holds the encoded variant under the union key
  have hbody : mapLookup (bodyMapOf (toJSONMap (.vstruct (GoFields.ofList F)))) u.jsonFieldName =
      some (encodeJSON V) := by
    rw [mapLookup_bodyMapOf, hserial]
    rfl
  have hencV : encodeJSON V = .jobj (pf.map (fun fv => ((parseJSONTag fv.1).Name, encodeJSON fv.2))) := by
    rw [hV]
    rw [show encodeJSON (.vptrSome (.vstruct (GoFields.ofList pf))) =
      .jobj (encodeJSONFields (GoFields.ofList pf)) from rfl]
    rw [encodeJSONFields_flat pf hflat.1]
  refine ⟨by rw [hbody, hencV], ?_, hgetA⟩
  -- the unmarshal pass: split the descriptors around the active one
  obtain ⟨us1, us2, hsplit⟩ := List.append_of_mem hu
  have hpw : (collectUnionFields (.vstruct (GoFields.ofList F))).Pairwise
      (fun a b => a.fieldIndex < b.fieldIndex) := by
    rw [collectUnionFields_ofList]
    exact collectUnionFieldsLoop_idx_sorted _ 0
  rw [hsplit] at hpw
  have hpw' := List.pairwise_append.mp hpw
  have hne1 : ∀ u' ∈ us1, u' ≠ u := by
    intro u' hu' heq
    have := hpw'.2.2 u' hu' u (by simp)
    rw [heq] at this
    omega
  have hne2 : ∀ u' ∈ us2, u' ≠ u := by
    intro u' hu' heq
    have := (List.pairwise_cons.mp hpw'.2.1).1 u' hu'
    rw [heq] at this
    omega
  have hmem1 : ∀ u' ∈ us1, u' ∈ collectUnionFields (.vstruct (GoFields.ofList F)) := by
    intro u' hu'
    rw [hsplit]
    simp [hu']
  have hmem2 : ∀ u' ∈ us2, u' ∈ collectUnionFields (.vstruct (GoFields.ofList F)) := by
    intro u' hu'
    rw [hsplit]
    simp [hu']
  -- the discriminator reads the same on the rebound struct
  have hdF0 : fieldByName F0 dname = some (dm, .vstr dval) := by
    rw [hF0, fieldByName_middle_value F1 F2 um
      (.vptrNil (.vstruct (GoFields.ofList (zeroFields pf)))) V dname humname]
    rw [← hF]
    exact hdF
  set body : List (String × JVal) :=
    bodyMapOf (toJSONMap (.vstruct (GoFields.ofList F))) with hbodyD
  -- the active descriptor's unmarshal step rebinds the variant
  have hstepU : unmarshalUnionStep F0 body u = .ok F := by
    have hget0 : F0.get? u.fieldIndex =
        some (um, .vptrNil (.vstruct (GoFields.ofList (zeroFields pf)))) := by
      rw [List.get?_eq_getElem?]
      exact hgetA0
    have hdec : unionDecodeTarget (.vptrNil (.vstruct (GoFields.ofList (zeroFields pf))))
        (encodeJSON V) = .ok V := by
      rw [hV]
      simp only [unionDecodeTarget]
      rw [show encodeJSON (.vptrSome (.vstruct (GoFields.ofList pf))) =
        encodeJSON (.vstruct (GoFields.ofList pf)) from rfl,
        jsonUnmarshalInto_flat_roundtrip pf hflat]
    simp only [unmarshalUnionStep, hdfu, hdF0, hact, ne_eq, not_true_eq_false, if_false,
      hbody, hget0, hexp, if_true, hdec]
    rw [hF0, hidx, updateFieldAt_middle F1 F2 um _ V, ← hF]
  -- descriptors before the active one leave the zeroed struct untouched
  have hskip1 : unmarshalUnionFields F0 body us1 = .ok F0 := by
    refine unmarshalUnionFields_skip F0 body us1 ?_
    intro u' hu'
    refine unmarshalUnionStep_mismatch F0 body u' dm dval ?_ ?_
    · rw [hdisc u' (hmem1 u' hu')]
      exact hdF0
    · exact Ne.symm (hothers u' (hmem1 u' hu') (hne1 u' hu'))
  rw [hsplit, unmarshalUnionFields_append, hskip1]
  show unmarshalUnionFields F0 body (u :: us2) = .ok F
  simp only [unmarshalUnionFields, hstepU]
  exact unmarshalUnionFields_skip F body us2 (fun u' hu' =>
    unmarshalUnionStep_mismatch F body u' dm dval
      (by rw [hdisc u' (hmem2 u' hu')]; exact hdF)
      (Ne.symm (hothers u' (hmem2 u' hu') (hne2 u' hu'))))

/-- C4 witness: evaluation of the round trip on the concrete
UserActionRequest shape, discriminator "create", active variant
CreateProps with payload field Name = "bob". -/
theorem c4_union_roundtrip_witness :
    mapLookup (bodyMapOf (toJSONMap (.vstruct (GoFields.ofList
        ([(uaActionMeta, .vstr "create")] ++
          (uaCreateMeta, .vptrSome (.vstruct (GoFields.ofList uaPayload))) ::
          [uaDeleteField]))))) uaDescriptor.jsonFieldName =
      some (.jobj (uaPayload.map (fun fv => ((parseJSONTag fv.1).Name, encodeJSON fv.2)))) ∧
    unmarshalUnionFields
      ([(uaActionMeta, .vstr "create")] ++
        (uaCreateMeta, .vptrNil (.vstruct (GoFields.ofList (zeroFields uaPayload)))) ::
        [uaDeleteField])
      (bodyMapOf (toJSONMap (.vstruct (GoFields.ofList
        ([(uaActionMeta, .vstr "create")] ++
          (uaCreateMeta, .vptrSome (.vstruct (GoFields.ofList uaPayload))) ::
          [uaDeleteField])))))
      (collectUnionFields (.vstruct (GoFields.ofList
        ([(uaActionMeta, .vstr "create")] ++
          (uaCreateMeta, .vptrSome (.vstruct (GoFields.ofList uaPayload))) ::
          [uaDeleteField])))) =
      .ok ([(uaActionMeta, .vstr "create")] ++
        (uaCreateMeta, .vptrSome (.vstruct (GoFields.ofList uaPayload))) ::
        [uaDeleteField]) ∧
    ([(uaActionMeta, .vstr "create")] ++
      (uaCreateMeta, .vptrSome (.vstruct (GoFields.ofList uaPayload))) ::
      [uaDeleteField])[uaDescriptor.fieldIndex]? =
      some (uaCreateMeta, .vptrSome (.vstruct (GoFields.ofList uaPayload))) :=
  c4_union_roundtrip [(uaActionMeta, .vstr "create")] [uaDeleteField] uaPayload
    uaCreateMeta uaActionMeta "Action" "create" uaDescriptor
    (by decide) rfl (by decide) (by decide) rfl (by decide) rfl
    ⟨by decide, by decide⟩
    (by
      intro u' hu' m' w' hget
      have hl : collectUnionFields (.vstruct (GoFields.ofList
          ([(uaActionMeta, .vstr "create")] ++
            (uaCreateMeta, .vptrSome (.vstruct (GoFields.ofList uaPayload))) ::
            [uaDeleteField]))) =
          [uaDescriptor,
           { fieldIndex := 2, jsonFieldName := "props", discriminatorField := "Action",
             discriminatorValue := "delete" }] := by decide
      rw [hl] at hu'
      rcases List.mem_cons.mp hu' with h | h
      · subst h
        have h2 : (uaCreateMeta, GoVal.vptrSome (.vstruct (GoFields.ofList uaPayload))) =
            (m', w') := Option.some.inj hget
        have h3 : m' = uaCreateMeta := (congrArg Prod.fst h2).symm
        rw [h3]
        decide
      · rw [List.mem_singleton] at h
        subst h
        have h2 : uaDeleteField = (m', w') := Option.some.inj hget
        have h3 : m' = uaDeleteField.1 := (congrArg Prod.fst h2).symm
        rw [h3]
        decide)
